import Mathlib

/-!
# scrape-onefootball.js

A shallow embedding of `src/scrape-onefootball.js`: the extraction loop of
`scrapeOneFootball` (lines 56-98), its render loop (lines 122-133) and
`generatePoster` (lines 137-241), together with the library operations those
lines call (cheerio selections, `String.prototype.trim`, `split`, `replace`,
`decodeURIComponent`, `Array.prototype.slice`), modelled after their
documented behaviour.

JavaScript strings are sequences of UTF-16 code units.  A parsed document is a
forest of nodes; an element is identified by its position in that forest, so
selections are lists in document order and may hold structurally equal nodes.
-/

namespace OneFootball

/-! ## Strings -/

/-- A JavaScript string: its UTF-16 code units. -/
abbrev Str := List Nat

/-- The code units of one code point (ECMA-262 `UTF16EncodeCodePoint`). -/
def utf16EncodeCodePoint (cp : Nat) : Str :=
  if cp ≤ 65535 then [cp]
  else [(cp - 65536) / 1024 + 55296, (cp - 65536) % 1024 + 56320]

/-- The JavaScript string denoted by a literal. -/
def utf16 (s : String) : Str :=
  s.toList.flatMap (fun c => utf16EncodeCodePoint c.toNat)

/-- ECMA-262 `WhiteSpace` and `LineTerminator` code units, the ones `trim` strips. -/
def isWhiteSpace (c : Nat) : Bool :=
  c == 9 || c == 10 || c == 11 || c == 12 || c == 13 || c == 32 || c == 160 ||
  c == 5760 || (8192 ≤ c && c ≤ 8202) || c == 8232 || c == 8233 || c == 8239 ||
  c == 8287 || c == 12288 || c == 65279

/-- Leading white space removed. -/
def trimStart (s : Str) : Str := s.dropWhile isWhiteSpace

/-- Trailing white space removed. -/
def trimEnd (s : Str) : Str := (s.reverse.dropWhile isWhiteSpace).reverse

/-- The method `String.prototype.trim`. -/
def trim (s : Str) : Str := trimEnd (trimStart s)

/-- The method `String.prototype.includes`: `frag` occurs in `s` as a contiguous substring. -/
def includes : Str → Str → Bool
  | [], frag => frag.isEmpty
  | c :: cs, frag => frag.isPrefixOf (c :: cs) || includes cs frag

/-- Worker of `split`: `skip` counts the separator code units still to pass over,
`acc` holds the current piece reversed. -/
def splitGo (sep : Str) : Str → Nat → Str → List Str
  | [], _, acc => [acc.reverse]
  | _ :: cs, skip + 1, acc => splitGo sep cs skip acc
  | c :: cs, 0, acc =>
    if sep.isPrefixOf (c :: cs) then acc.reverse :: splitGo sep cs (sep.length - 1) []
    else splitGo sep cs 0 (c :: acc)

/-- The method `String.prototype.split` with a non-empty string separator: the pieces between
successive non-overlapping occurrences, found left to right. -/
def split (s sep : Str) : List Str := splitGo sep s 0 []

/-- The operator `||` on a possibly `undefined` string and a string: the left operand
when it is truthy (a non-empty string), the right one otherwise. -/
def orElse (x : Option Str) (y : Str) : Str :=
  match x with
  | some (c :: cs) => c :: cs
  | _ => y

/-! ## decodeURIComponent and encodeURIComponent (ECMA-262 `Decode`, `Encode`) -/

/-- The exception `decodeURIComponent` and `encodeURIComponent` throw. -/
inductive URIError where
  | malformed
  deriving DecidableEq, Repr

instance instDecidableEqExcept {ε α : Type} [DecidableEq ε] [DecidableEq α] :
    DecidableEq (Except ε α)
  | .ok a, .ok b =>
    if h : a = b then isTrue (by rw [h]) else isFalse (by intro e; cases e; exact h rfl)
  | .error a, .error b =>
    if h : a = b then isTrue (by rw [h]) else isFalse (by intro e; cases e; exact h rfl)
  | .ok _, .error _ => isFalse (by intro e; cases e)
  | .error _, .ok _ => isFalse (by intro e; cases e)

/-- Value of a hexadecimal digit. -/
def hexVal (c : Nat) : Option Nat :=
  if 48 ≤ c ∧ c ≤ 57 then some (c - 48)
  else if 65 ≤ c ∧ c ≤ 70 then some (c - 55)
  else if 97 ≤ c ∧ c ≤ 102 then some (c - 87)
  else none

/-- ECMA-262 `ParseHexOctet` on the two code units after a `%`. -/
def parseHexOctet (a b : Nat) : Option Nat :=
  match hexVal a, hexVal b with
  | some h, some l => some (16 * h + l)
  | _, _ => none

/-- An escape `%XX` continuing a multi-octet sequence: `p` must be `%`. -/
def continuationOctet (p a b : Nat) : Option Nat :=
  if p = 37 then parseHexOctet a b else none

/-- Number of leading 1 bits of an octet. -/
def leadingOnes (b : Nat) : Nat :=
  if b < 128 then 0 else if b < 192 then 1 else if b < 224 then 2
  else if b < 240 then 3 else if b < 248 then 4 else 5

/-- A continuation octet `80..BF`. -/
def isCont (b : Nat) : Bool := 128 ≤ b && b ≤ 191

/-- The code point of a well-formed multi-octet UTF-8 sequence (Unicode table 3-7);
`none` for overlong forms, surrogates, values above `10FFFF` and stray octets. -/
def utf8CodePoint : List Nat → Option Nat
  | [b0, b1] =>
    if 194 ≤ b0 ∧ b0 ≤ 223 ∧ isCont b1 then some ((b0 - 192) * 64 + (b1 - 128)) else none
  | [b0, b1, b2] =>
    if ((b0 = 224 ∧ 160 ≤ b1 ∧ b1 ≤ 191) ∨ (225 ≤ b0 ∧ b0 ≤ 236 ∧ isCont b1) ∨
        (b0 = 237 ∧ 128 ≤ b1 ∧ b1 ≤ 159) ∨ (238 ≤ b0 ∧ b0 ≤ 239 ∧ isCont b1)) ∧ isCont b2
    then some ((b0 - 224) * 4096 + (b1 - 128) * 64 + (b2 - 128)) else none
  | [b0, b1, b2, b3] =>
    if ((b0 = 240 ∧ 144 ≤ b1 ∧ b1 ≤ 191) ∨ (241 ≤ b0 ∧ b0 ≤ 243 ∧ isCont b1) ∨
        (b0 = 244 ∧ 128 ≤ b1 ∧ b1 ≤ 143)) ∧ isCont b2 ∧ isCont b3
    then some ((b0 - 240) * 262144 + (b1 - 128) * 4096 + (b2 - 128) * 64 + (b3 - 128))
    else none
  | _ => none

/-- The character spelled by the octets of one multi-octet escape sequence, with the
number of code units the sequence takes after its first `%`. -/
def decodedSequence (octets : List Nat) : Except URIError (Str × Nat) :=
  match utf8CodePoint octets with
  | none => .error .malformed
  | some v => .ok (utf16EncodeCodePoint v, 3 * octets.length - 1)

/-- One step of ECMA-262 `Decode` at a `%`: `s` is the text after the `%`.  The result
is the decoded character and the number of code units of `s` the escape sequence takes;
a `%` not followed by two hexadecimal digits, a first octet with one or more than four
leading 1 bits, a missing continuation escape or an ill-formed UTF-8 sequence throws. -/
def readEscape (s : Str) : Except URIError (Str × Nat) :=
  match s with
  | a :: b :: r1 =>
    match parseHexOctet a b with
    | none => .error .malformed
    | some b0 =>
      if leadingOnes b0 = 0 then .ok ([b0], 2)
      else if leadingOnes b0 = 2 then
        match r1 with
        | p1 :: a1 :: c1 :: _ =>
          match continuationOctet p1 a1 c1 with
          | some b1 => decodedSequence [b0, b1]
          | none => .error .malformed
        | _ => .error .malformed
      else if leadingOnes b0 = 3 then
        match r1 with
        | p1 :: a1 :: c1 :: p2 :: a2 :: c2 :: _ =>
          match continuationOctet p1 a1 c1, continuationOctet p2 a2 c2 with
          | some b1, some b2 => decodedSequence [b0, b1, b2]
          | _, _ => .error .malformed
        | _ => .error .malformed
      else if leadingOnes b0 = 4 then
        match r1 with
        | p1 :: a1 :: c1 :: p2 :: a2 :: c2 :: p3 :: a3 :: c3 :: _ =>
          match continuationOctet p1 a1 c1, continuationOctet p2 a2 c2,
                continuationOctet p3 a3 c3 with
          | some b1, some b2, some b3 => decodedSequence [b0, b1, b2, b3]
          | _, _, _ => .error .malformed
        | _ => .error .malformed
      else .error .malformed
  | _ => .error .malformed

/-- The loop of ECMA-262 `Decode` with an empty set of preserved characters; `skip`
counts the code units of the current escape sequence still to pass over. -/
def decodeGo : Str → Nat → Except URIError Str
  | [], _ => .ok []
  | _ :: cs, skip + 1 => decodeGo cs skip
  | c :: cs, 0 =>
    if c = 37 then
      match readEscape cs with
      | .error e => .error e
      | .ok (decoded, taken) => (decodeGo cs taken).map (fun r => decoded ++ r)
    else (decodeGo cs 0).map (fun r => c :: r)

/-- The function `decodeURIComponent`: every escape sequence `%XX…` is replaced by the character
whose UTF-8 encoding it spells; a malformed escape sequence throws `URIError`. -/
def decodeURIComponent (s : Str) : Except URIError Str := decodeGo s 0

/-- The characters `encodeURIComponent` leaves alone: letters, digits and `-_.!~*'()`. -/
def isUnreserved (c : Nat) : Bool :=
  (65 ≤ c && c ≤ 90) || (97 ≤ c && c ≤ 122) || (48 ≤ c && c ≤ 57) ||
  c == 45 || c == 95 || c == 46 || c == 33 || c == 126 || c == 42 || c == 39 ||
  c == 40 || c == 41

/-- The upper-case hexadecimal digit of a value below 16. -/
def hexDigit (n : Nat) : Nat := if n < 10 then 48 + n else 55 + n

/-- The escape `%XX` of one octet. -/
def escapeOctet (b : Nat) : Str := [37, hexDigit (b / 16), hexDigit (b % 16)]

/-- UTF-8 octets of a code point. -/
def utf8Encode (cp : Nat) : List Nat :=
  if cp < 128 then [cp]
  else if cp < 2048 then [192 + cp / 64, 128 + cp % 64]
  else if cp < 65536 then [224 + cp / 4096, 128 + cp / 64 % 64, 128 + cp % 64]
  else [240 + cp / 262144, 128 + cp / 4096 % 64, 128 + cp / 64 % 64, 128 + cp % 64]

/-- The escape sequence of one code point. -/
def escapeCodePoint (cp : Nat) : Str := (utf8Encode cp).flatMap escapeOctet

/-- The function `encodeURIComponent`, the percent-encoding of a string: unreserved characters stay,
every other code point becomes the escapes of its UTF-8 octets; an unpaired surrogate
throws `URIError`. -/
def encodeURIComponent : Str → Except URIError Str
  | [] => .ok []
  | c :: rest =>
    if isUnreserved c then (encodeURIComponent rest).map (fun r => c :: r)
    else if 56320 ≤ c ∧ c ≤ 57343 then .error .malformed
    else if 55296 ≤ c ∧ c ≤ 56319 then
      match rest with
      | d :: r1 =>
        if 56320 ≤ d ∧ d ≤ 57343 then
          (encodeURIComponent r1).map
            (fun r => escapeCodePoint ((c - 55296) * 1024 + (d - 56320) + 65536) ++ r)
        else .error .malformed
      | [] => .error .malformed
    else (encodeURIComponent rest).map (fun r => escapeCodePoint c ++ r)

/-! ## The parsed document (cheerio) -/

/-- A node of the parsed document. -/
inductive Node where
  | text (data : Str)
  | comment (data : Str)
  | elem (tag : String) (attrs : List (String × Str)) (children : List Node)

mutual
/-- The proper descendants of a node, in document order. -/
def Node.descendants : Node → List Node
  | .text _ => []
  | .comment _ => []
  | .elem _ _ cs => descendantsOfList cs
/-- The nodes of a forest, in document order. -/
def descendantsOfList : List Node → List Node
  | [] => []
  | c :: cs => c :: (c.descendants ++ descendantsOfList cs)
end

mutual
/-- The text of a node: the data of its text nodes, concatenated. -/
def Node.textContent : Node → Str
  | .text d => d
  | .comment _ => []
  | .elem _ _ cs => textOfList cs
/-- The combined text of a list of nodes (`.text()` on a selection). -/
def textOfList : List Node → Str
  | [] => []
  | c :: cs => c.textContent ++ textOfList cs
end

/-- The value of an attribute of an element, `none` (`undefined`) when absent. -/
def Node.attrib (name : String) : Node → Option Str
  | .elem _ attrs _ => attrs.lookup name
  | _ => none

/-- The selector `tag`: an element with that tag name. -/
def isTag (tag : String) : Node → Bool
  | .elem t _ _ => t == tag
  | _ => false

/-- The selector `tag[class*="frag"]`: an element with that tag name whose `class`
attribute contains `frag`. -/
def hasClassPart (tag : String) (frag : Str) (n : Node) : Bool :=
  isTag tag n &&
    match n.attrib "class" with
    | some v => includes v frag
    | none => false

/-- The top-level selection (`$(selector)`) over a document given by its top-level nodes. -/
def select (sel : Node → Bool) (doc : List Node) : List Node :=
  (descendantsOfList doc).filter sel

/-- The descendants of `n` matching a selector (`$(n).find(selector)`). -/
def find (sel : Node → Bool) (n : Node) : List Node :=
  n.descendants.filter sel

/-- The first element of a selection (`:first`, `.first()`), as a selection. -/
def first (sel : List Node) : List Node := sel.take 1

/-- The last element of a selection (`:last`), as a selection. -/
def last (sel : List Node) : List Node := sel.drop (sel.length - 1)

/-- The attribute of the first element of a selection (`.attr(name)`). -/
def attr (name : String) : List Node → Option Str
  | [] => none
  | n :: _ => n.attrib name

/-! ## The extraction loop of `scrapeOneFootball` (lines 56-98) -/

/-- The object pushed into `matches`. -/
structure Match where
  league : Str
  home : Str
  away : Str
  homeLogo : Str
  awayLogo : Str
  timeStatus : Str
  deriving DecidableEq, Repr

/-- The selector `div[class*="xpaLayoutContainerFullWidth--matchCardsList"]`. -/
def isSection : Node → Bool :=
  hasClassPart "div" (utf16 "xpaLayoutContainerFullWidth--matchCardsList")

/-- The selector `a[class*="MatchCard_matchCard"]`. -/
def isMatchCard : Node → Bool := hasClassPart "a" (utf16 "MatchCard_matchCard")

/-- The selector `span[class*="__name__"]`. -/
def isNameSpan : Node → Bool := hasClassPart "span" (utf16 "__name__")

/-- The selector `span[class*="__infoMessage__"]`. -/
def isInfoMessage : Node → Bool := hasClassPart "span" (utf16 "__infoMessage__")

/-- The selector `span[class*="__score__"]`. -/
def isScoreSpan : Node → Bool := hasClassPart "span" (utf16 "__score__")

/-- The selector `h2[class*="Title_leftAlign"]`. -/
def isTitle : Node → Bool := hasClassPart "h2" (utf16 "Title_leftAlign")

/-- Line 60: the league label of a section. -/
def league (sec : Node) : Str :=
  orElse (some (trim (textOfList (find isTitle sec)))) (utf16 "Liga")

/-- Line 64. -/
def homeTeam (matchCard : Node) : Str := trim (textOfList (first (find isNameSpan matchCard)))

/-- Line 65. -/
def awayTeam (matchCard : Node) : Str := trim (textOfList (last (find isNameSpan matchCard)))

/-- Lines 67 and 70: `homeImg.length ? homeImg.attr('src') : ''`. -/
def homeLogo (matchCard : Node) : Option Str :=
  let homeImg := first (find (isTag "img") matchCard)
  if homeImg.length ≠ 0 then attr "src" homeImg else some []

/-- Lines 68 and 71: `awayImg.length ? awayImg.attr('src') : ''`. -/
def awayLogo (matchCard : Node) : Option Str :=
  let awayImg := last (find (isTag "img") matchCard)
  if awayImg.length ≠ 0 then attr "src" awayImg else some []

/-- Lines 74-82: the status text read from the card, before the `"VS"` default. -/
def timeStatus (matchCard : Node) : Str :=
  let timeElem := first (find (isTag "time") matchCard)
  let statusElem := first (find isInfoMessage matchCard)
  if statusElem.length ≠ 0 then trim (textOfList statusElem)
  else if timeElem.length ≠ 0 then trim (textOfList timeElem)
  else []

/-- Line 85. -/
def hasScore (matchCard : Node) : Bool := decide ((find isScoreSpan matchCard).length > 0)

/-- Lines 92-93: `logo ? decodeURIComponent(logo.split('image=')[1] || logo) : ''`. -/
def logoUrl (logo : Option Str) : Except URIError Str :=
  match logo with
  | some (c :: cs) =>
    decodeURIComponent (orElse ((split (c :: cs) (utf16 "image="))[1]?) (c :: cs))
  | _ => .ok []

/-- Lines 63-97: the body of the inner `each`, run on one match card with the array
`matches` built so far (`matchList`); a `URIError` thrown while the object is built
leaves the loop. -/
def eachMatchCard (leagueName : Str) (matchList : List Match) (matchCard : Node) :
    Except URIError (List Match) :=
  if homeTeam matchCard ≠ [] ∧ awayTeam matchCard ≠ [] ∧ hasScore matchCard = false then
    match logoUrl (homeLogo matchCard) with
    | .error e => .error e
    | .ok hl =>
      match logoUrl (awayLogo matchCard) with
      | .error e => .error e
      | .ok al =>
        .ok (matchList ++ [
          { league := leagueName
            home := homeTeam matchCard
            away := awayTeam matchCard
            homeLogo := hl
            awayLogo := al
            timeStatus := orElse (some (timeStatus matchCard)) (utf16 "VS") }])
  else .ok matchList

/-- Lines 59-98: the body of the outer `each`, run on one league section. -/
def eachSection (matchList : List Match) (sec : Node) : Except URIError (List Match) :=
  (find isMatchCard sec).foldlM (eachMatchCard (league sec)) matchList

/-- Lines 56-98: the array `matches` after the extraction loop over the parsed page,
or the exception that left it. -/
def extractMatches (doc : List Node) : Except URIError (List Match) :=
  (select isSection doc).foldlM eachSection []

/-! ## The file name: `replace(/[^a-z0-9]/gi, '_')` (lines 227-230) -/

/-- Upper case of an ASCII code unit. -/
def asciiUpper (c : Nat) : Nat := if 97 ≤ c ∧ c ≤ 122 then c - 32 else c

/-- The result of `toUpperCase` on the one-code-unit string `ch`: fixed by the standard on ASCII, given
by the Unicode case mapping `nonAscii` elsewhere (a result may have several code units). -/
def upperOfUnit (nonAscii : Nat → Str) (ch : Nat) : Str :=
  if ch < 128 then [asciiUpper ch] else nonAscii ch

/-- ECMA-262 `Canonicalize` of a pattern with flag `i` and without flag `u`. -/
def canonicalize (nonAscii : Nat → Str) (ch : Nat) : Nat :=
  match upperOfUnit nonAscii ch with
  | [cu] => if 128 ≤ ch ∧ cu < 128 then ch else cu
  | _ => ch

/-- The members of the class `a-z0-9`. -/
def classMembers : List Nat := List.range' 97 26 ++ List.range' 48 10

/-- ECMA-262 `CharacterSetMatcher` for the inverted class `[^a-z0-9]` under flag `i`:
`ch` matches when no member of the class has the same canonical form. -/
def matchesNonAlnum (nonAscii : Nat → Str) (ch : Nat) : Bool :=
  !(classMembers.any (fun a => canonicalize nonAscii a == canonicalize nonAscii ch))

/-- The method `String.prototype.replace` with a global pattern that matches single code units:
every matching code unit is replaced, the others are copied. -/
def replaceAll (pattern : Nat → Bool) (replacement : Str) : Str → Str
  | [] => []
  | c :: cs =>
    if pattern c then replacement ++ replaceAll pattern replacement cs
    else c :: replaceAll pattern replacement cs

/-- The expression `name.replace(/[^a-z0-9]/gi, '_')`. -/
def sanitize (nonAscii : Nat → Str) (name : Str) : Str :=
  replaceAll (matchesNonAlnum nonAscii) (utf16 "_") name

/-- Lines 227-230. -/
def fileName (nonAscii : Nat → Str) (m : Match) : Str :=
  sanitize nonAscii m.home ++ utf16 "_vs_" ++ sanitize nonAscii m.away ++ utf16 ".png"

/-- The class `[A-Za-z0-9]`. -/
def isAlnum (c : Nat) : Bool :=
  (65 ≤ c && c ≤ 90) || (97 ≤ c && c ≤ 122) || (48 ≤ c && c ≤ 57)

/-! ## `generatePoster` (lines 137-241) and the render loop (lines 122-133) -/

/-- The calls of `generatePoster` that may throw. -/
inductive Step where
  | createCanvas | getContext
  | loadBackground | drawBackground | fillOverlay | beginPath | roundRect | fillPill
  | fillLeague
  | loadHomeLogo | drawHomeLogo | loadAwayLogo | drawAwayLogo
  | fillVS | fillStatus
  | measureHome | fillHome | underlineHome
  | measureAway | fillAway | underlineAway
  | toBuffer | writeFileSync
  deriving DecidableEq, Repr

/-- What a run leaves behind, in order: drawing calls with their text or size argument
(positions are fixed constants of the source and left out), console lines and file
writes; `call` marks an entry into `generatePoster`. -/
inductive Event where
  | call (m : Match)
  | drawBackground
  | fillOverlay
  | fillPill
  | fillLeague (text : Str)
  | drawHomeLogo (url : Str)
  | warnHome (team : Str)
  | drawAwayLogo (url : Str)
  | warnAway (team : Str)
  | fillVS
  | fillStatus (text : Str)
  | fillHome (name : Str)
  | underlineHome (width : Nat)
  | fillAway (name : Str)
  | underlineAway (width : Nat)
  | writeFileSync (name : Str)
  | logCreated (name : Str)
  | logError (home away : Str) (failed : Step)
  deriving DecidableEq, Repr

/-- The surroundings of a run: which call throws in which invocation of
`generatePoster` (numbered from 0), the text metrics and the Unicode case mappings. -/
structure World where
  fails : Nat → Step → Bool
  measureText : Str → Nat
  toUpperCase : Str → Str
  nonAscii : Nat → Str

/-- A computation with effects: the events it produced and either its value or the
call whose exception left it. -/
structure Run (α : Type) where
  log : List Event
  result : Except Step α

/-- Sequencing: the second part runs when the first one returned. -/
def Run.andThen {α β : Type} (x : Run α) (f : α → Run β) : Run β :=
  match x.result with
  | .error e => { log := x.log, result := .error e }
  | .ok a => { log := x.log ++ (f a).log, result := (f a).result }

instance : Monad Run where
  pure a := { log := [], result := .ok a }
  bind := Run.andThen

/-- A `try` block with its `catch` handler. -/
def Run.tryCatch {α : Type} (body : Run α) (handler : Step → Run α) : Run α :=
  match body.result with
  | .ok a => { log := body.log, result := .ok a }
  | .error e => { log := body.log ++ (handler e).log, result := (handler e).result }

/-- An effect that cannot throw (a console line). -/
def emit (e : Event) : Run Unit := { log := [e], result := .ok () }

/-- A call without a visible effect of its own: it returns or throws. -/
def attempt (w : World) (i : Nat) (s : Step) : Run Unit :=
  if w.fails i s then { log := [], result := .error s } else { log := [], result := .ok () }

/-- A call with a visible effect: it throws, or it returns having had the effect. -/
def perform (w : World) (i : Nat) (s : Step) (e : Event) : Run Unit :=
  if w.fails i s then { log := [], result := .error s } else { log := [e], result := .ok () }

/-- Lines 176-184: the home logo, in its own `try`. -/
def drawHome (w : World) (i : Nat) (m : Match) : Run Unit :=
  Run.tryCatch
    (if m.homeLogo ≠ [] then do
        attempt w i .loadHomeLogo
        perform w i .drawHomeLogo (.drawHomeLogo m.homeLogo)
      else pure ())
    (fun _ => emit (.warnHome m.home))

/-- Lines 186-194: the away logo, in its own `try`. -/
def drawAway (w : World) (i : Nat) (m : Match) : Run Unit :=
  Run.tryCatch
    (if m.awayLogo ≠ [] then do
        attempt w i .loadAwayLogo
        perform w i .drawAwayLogo (.drawAwayLogo m.awayLogo)
      else pure ())
    (fun _ => emit (.warnAway m.away))

/-- Lines 145-236: the body of the outer `try` of `generatePoster`. -/
def posterBody (w : World) (i : Nat) (m : Match) : Run Unit := do
  attempt w i .loadBackground
  perform w i .drawBackground .drawBackground
  perform w i .fillOverlay .fillOverlay
  attempt w i .beginPath
  attempt w i .roundRect
  perform w i .fillPill .fillPill
  perform w i .fillLeague (.fillLeague (w.toUpperCase m.league))
  drawHome w i m
  drawAway w i m
  perform w i .fillVS .fillVS
  perform w i .fillStatus (.fillStatus m.timeStatus)
  attempt w i .measureHome
  perform w i .fillHome (.fillHome m.home)
  perform w i .underlineHome (.underlineHome (w.measureText m.home))
  attempt w i .measureAway
  perform w i .fillAway (.fillAway m.away)
  perform w i .underlineAway (.underlineAway (w.measureText m.away))
  attempt w i .toBuffer
  perform w i .writeFileSync (.writeFileSync (fileName w.nonAscii m))
  emit (.logCreated (fileName w.nonAscii m))

/-- Lines 137-241: invocation number `i` of `generatePoster`, on `m`. -/
def generatePoster (w : World) (i : Nat) (m : Match) : Run Unit := do
  emit (.call m)
  attempt w i .createCanvas
  attempt w i .getContext
  Run.tryCatch (posterBody w i m) (fun e => emit (.logError m.home m.away e))

/-- The method `Array.prototype.slice(start, end)`. -/
def slice {α : Type} (xs : List α) (start stop : Int) : List α :=
  let len : Int := xs.length
  let k := if start < 0 then max (len + start) 0 else min start len
  let final := if stop < 0 then max (len + stop) 0 else min stop len
  (xs.drop k.toNat).take (final - k).toNat

/-- The `for … of` loop of lines 124-126 from invocation number `i` on; an exception
out of `generatePoster` leaves the loop. -/
def renderFrom (w : World) : Nat → List Match → Run Unit
  | _, [] => pure ()
  | i, m :: ms => do
    generatePoster w i m
    renderFrom w (i + 1) ms

/-- Lines 124-126: `for (const match of matches.slice(0, 10)) await generatePoster(…)`.
An `error` result is the exception that reaches the `catch` of line 130, which ends
the process. -/
def renderLoop (w : World) (matchList : List Match) : Run Unit :=
  renderFrom w 0 (slice matchList 0 10)

/-- The fixtures on which `generatePoster` was entered, in order. -/
def calls : List Event → List Match
  | [] => []
  | .call m :: es => m :: calls es
  | _ :: es => calls es

/-- The names of the files written, in order. -/
def filesWritten : List Event → List Str
  | [] => []
  | .writeFileSync n :: es => n :: filesWritten es
  | _ :: es => filesWritten es

/-! ## Statements about the extraction -/

/-- A record read from a match card of a league section of the document. -/
def FromCard (doc : List Node) (r : Match) : Prop :=
  ∃ sec ∈ select isSection doc, ∃ matchCard ∈ find isMatchCard sec,
    homeTeam matchCard ≠ [] ∧ awayTeam matchCard ≠ [] ∧ hasScore matchCard = false ∧
    logoUrl (homeLogo matchCard) = .ok r.homeLogo ∧
    logoUrl (awayLogo matchCard) = .ok r.awayLogo ∧
    r.league = league sec ∧ r.home = homeTeam matchCard ∧ r.away = awayTeam matchCard ∧
    r.timeStatus = orElse (some (timeStatus matchCard)) (utf16 "VS")

/-- The status text as the specification words it: the trimmed text of the first
status-message span when the card has one, otherwise that of the first `time` element
when it has one, otherwise empty. -/
def statusCandidate (matchCard : Node) : Str :=
  match (find isInfoMessage matchCard).head? with
  | some e => trim e.textContent
  | none =>
    match (find (isTag "time") matchCard).head? with
    | some e => trim e.textContent
    | none => []

/-- The specified `timeStatus` of a record: the candidate, or the literal `VS`. -/
def specifiedStatus (matchCard : Node) : Str :=
  if statusCandidate matchCard = [] then utf16 "VS" else statusCandidate matchCard

/-! ## Sample markup -/

/-- An element `<span class="cls">text</span>`. -/
def spanOf (cls text : String) : Node :=
  .elem "span" [("class", utf16 cls)] [.text (utf16 text)]

/-- An element `<img src="src">`. -/
def imgOf (src : String) : Node := .elem "img" [("src", utf16 src)] []

/-- An element `<a class="MatchCard_matchCard__x1">…</a>`. -/
def cardOf (children : List Node) : Node :=
  .elem "a" [("class", utf16 "MatchCard_matchCard__x1")] children

/-- An element `<div class="xpaLayoutContainerFullWidth--matchCardsList">…</div>`. -/
def sectionOf (children : List Node) : Node :=
  .elem "div" [("class", utf16 "xpaLayoutContainerFullWidth--matchCardsList")] children

/-- The two team-name spans of a card, `Ajax` and `PSV`. -/
def teamSpans : List Node :=
  [spanOf "Team__name__a1" " Ajax ", spanOf "Team__name__a1" "PSV"]

/-- A card of a match that is being played: it shows a score. -/
def liveCard : Node := cardOf (teamSpans ++ [spanOf "Result__score__q" "2"])

/-- A card of an upcoming match with a kick-off time. -/
def upcomingCard : Node :=
  cardOf (teamSpans ++ [.elem "time" [] [.text (utf16 " 20:45 ")]])

/-- A card without team names. -/
def namelessCard : Node := cardOf [.elem "time" [] [.text (utf16 "20:45")]]

/-- The record read from a card with `teamSpans` and no image, with the given status. -/
def ajaxPsv (status : String) : Match :=
  { league := utf16 "Liga", home := utf16 "Ajax", away := utf16 "PSV",
    homeLogo := [], awayLogo := [], timeStatus := utf16 status }

/-- No league section lies inside another league section. -/
def NoNestedSections (doc : List Node) : Prop :=
  (select isSection doc).all (fun sec => (find isSection sec).isEmpty) = true

instance instDecidableNoNestedSections (doc : List Node) : Decidable (NoNestedSections doc) := by
  unfold NoNestedSections
  infer_instance

/-- The number of pairs of a league section among `nodes` and a match card inside it. -/
def cardsInSections (nodes : List Node) : Nat :=
  ((nodes.filter isSection).map (fun sec => (find isMatchCard sec).length)).sum

/-- A page with a league section inside a league section, holding one match card. -/
def nestedPage : List Node := [sectionOf [sectionOf [cardOf teamSpans]]]

/-- A page whose only card has a logo with a stray `%` in its address. -/
def strayPercentPage : List Node :=
  [sectionOf [cardOf (teamSpans ++ [imgOf "https://cdn.example.com/logo-100%.png"])]]

/-- A page with a sound card followed by a card with a stray `%` in a logo address. -/
def mixedPage : List Node :=
  [sectionOf [upcomingCard, cardOf (teamSpans ++ [imgOf "%"])]]

/-- An event other than an entry into `generatePoster`. -/
def notCall : Event → Prop
  | .call _ => False
  | _ => True

/-- An event other than a file write. -/
def notWrite : Event → Prop
  | .writeFileSync _ => False
  | _ => True

/-- The events of the home-logo block: nothing without a logo URL, the warning when
the load or the draw throws, the drawn logo otherwise. -/
def homeLogoEvents (w : World) (i : Nat) (m : Match) : List Event :=
  if m.homeLogo = [] then []
  else if w.fails i .loadHomeLogo = true ∨ w.fails i .drawHomeLogo = true then
    [.warnHome m.home]
  else [.drawHomeLogo m.homeLogo]

/-- The events of the away-logo block. -/
def awayLogoEvents (w : World) (i : Nat) (m : Match) : List Event :=
  if m.awayLogo = [] then []
  else if w.fails i .loadAwayLogo = true ∨ w.fails i .drawAwayLogo = true then
    [.warnAway m.away]
  else [.drawAwayLogo m.awayLogo]

/-- The calls guarded by the inner `try` blocks of lines 176-194. -/
def isLogoStep (s : Step) : Bool :=
  s == .loadHomeLogo || s == .drawHomeLogo || s == .loadAwayLogo || s == .drawAwayLogo

/-- A world in which the PNG encoding of the third poster throws and nothing else. -/
def sampleWorld : World :=
  { fails := fun i s => i == 2 && s == .toBuffer
    measureText := fun s => 7 * s.length
    toUpperCase := fun s => s.map asciiUpper
    nonAscii := fun c => [c] }

/-- A world in which creating the canvas of the first poster throws. -/
def noCanvasWorld : World :=
  { fails := fun i s => i == 0 && s == .createCanvas
    measureText := fun s => 7 * s.length
    toUpperCase := fun s => s.map asciiUpper
    nonAscii := fun c => [c] }

/-- A world in which loading the home logo throws, every time, and nothing else. -/
def noHomeLogoWorld : World :=
  { fails := fun _ s => s == .loadHomeLogo
    measureText := fun s => 7 * s.length
    toUpperCase := fun s => s.map asciiUpper
    nonAscii := fun c => [c] }

/-- A fixture with both logos. -/
def sampleMatch : Match :=
  { league := utf16 "Liga", home := utf16 "Ajax", away := utf16 "PSV",
    homeLogo := utf16 "https://e.com/ajax.png", awayLogo := utf16 "https://e.com/psv.png",
    timeStatus := utf16 "20:45" }

/-- Fifteen extracted fixtures, told apart by their league. -/
def fifteen : List Match :=
  (List.range 15).map (fun k => { sampleMatch with league := [65 + k] })

/-! ## Lemmas: strings -/

theorem dropWhile_eq_self_of_head {p : Nat → Bool} :
    ∀ (l : List Nat), (∀ c ∈ l.head?, p c = false) → l.dropWhile p = l
  | [], _ => rfl
  | c :: cs, h => by
    have hc : p c = false := h c (by simp)
    simp [List.dropWhile_cons, hc]

theorem head_dropWhile_not {p : Nat → Bool} (l : List Nat) :
    ∀ c ∈ (l.dropWhile p).head?, p c = false := by
  induction l with
  | nil => simp
  | cons a l ih =>
    intro c hc
    by_cases ha : p a = true
    · rw [List.dropWhile_cons_of_pos ha] at hc
      exact ih c hc
    · rw [List.dropWhile_cons_of_neg ha] at hc
      simp only [List.head?_cons, Option.mem_def, Option.some.injEq] at hc
      subst hc
      simpa using ha

theorem trimEnd_initial (s : Str) : trimEnd s <+: s := by
  unfold trimEnd
  have h : s.reverse.dropWhile isWhiteSpace <:+ s.reverse := List.dropWhile_suffix _
  have h2 := List.reverse_prefix.mpr h
  simpa using h2

theorem trimEnd_idem (s : Str) : trimEnd (trimEnd s) = trimEnd s := by
  unfold trimEnd
  rw [List.reverse_reverse]
  rw [dropWhile_eq_self_of_head _ (head_dropWhile_not _)]

theorem trimStart_trimEnd_of_head (s : Str) (h : ∀ c ∈ s.head?, isWhiteSpace c = false) :
    trimStart (trimEnd s) = trimEnd s := by
  unfold trimStart
  apply dropWhile_eq_self_of_head
  intro c hc
  obtain ⟨t, ht⟩ := trimEnd_initial s
  cases hte : trimEnd s with
  | nil => rw [hte] at hc; simp at hc
  | cons a as =>
    rw [hte] at hc ht
    simp only [List.head?_cons, Option.mem_def, Option.some.injEq] at hc
    subst hc
    apply h
    rw [← ht]
    simp

/-- Trimming a trimmed string changes nothing. -/
theorem trim_idem (s : Str) : trim (trim s) = trim s := by
  unfold trim
  rw [trimStart_trimEnd_of_head (trimStart s) (head_dropWhile_not s), trimEnd_idem]

/-! ## Lemmas: the extraction loop -/

theorem foldlM_ok_invariant {α β ε : Type} (f : β → α → Except ε β) (P : β → Prop) :
    ∀ (l : List α) (init r : β), P init →
      (∀ b a b', a ∈ l → P b → f b a = .ok b' → P b') →
      l.foldlM f init = .ok r → P r
  | [], init, r, h0, _, h => by
    simp only [List.foldlM_nil, pure, Except.pure, Except.ok.injEq] at h
    exact h ▸ h0
  | a :: l, init, r, h0, hstep, h => by
    simp only [List.foldlM_cons, bind, Except.bind] at h
    cases hfa : f init a with
    | error e => rw [hfa] at h; cases h
    | ok b =>
      rw [hfa] at h
      exact foldlM_ok_invariant f P l b r (hstep init a b (by simp) h0 hfa)
        (fun b1 a1 b2 ha1 => hstep b1 a1 b2 (by simp [ha1])) h

/-- What one pass of the inner loop body does: nothing, or one push of the record
read from the card. -/
theorem eachMatchCard_ok (leagueName : Str) (matchList : List Match) (matchCard : Node)
    (out : List Match) (h : eachMatchCard leagueName matchList matchCard = .ok out) :
    out = matchList ∨
    (homeTeam matchCard ≠ [] ∧ awayTeam matchCard ≠ [] ∧ hasScore matchCard = false ∧
      ∃ hl al, logoUrl (homeLogo matchCard) = .ok hl ∧ logoUrl (awayLogo matchCard) = .ok al ∧
        out = matchList ++ [
          { league := leagueName
            home := homeTeam matchCard
            away := awayTeam matchCard
            homeLogo := hl
            awayLogo := al
            timeStatus := orElse (some (timeStatus matchCard)) (utf16 "VS") }]) := by
  unfold eachMatchCard at h
  split at h
  · rename_i hc
    right
    refine ⟨hc.1, hc.2.1, hc.2.2, ?_⟩
    cases hh : logoUrl (homeLogo matchCard) with
    | error e => rw [hh] at h; cases h
    | ok hl =>
      cases ha : logoUrl (awayLogo matchCard) with
      | error e => rw [hh, ha] at h; cases h
      | ok al =>
        rw [hh, ha] at h
        simp only [Except.ok.injEq] at h
        exact ⟨hl, al, rfl, rfl, h.symm⟩
  · left
    simp only [Except.ok.injEq] at h
    exact h.symm

/-- Every record of `matches` was read from a match card of a league section. -/
theorem extractMatches_fromCard (doc : List Node) (ms : List Match)
    (h : extractMatches doc = .ok ms) : ∀ r ∈ ms, FromCard doc r := by
  unfold extractMatches at h
  refine foldlM_ok_invariant eachSection (fun b => ∀ r ∈ b, FromCard doc r) _ [] ms
    (by simp) ?_ h
  intro b sec b' hsec hb hb'
  unfold eachSection at hb'
  refine foldlM_ok_invariant (eachMatchCard (league sec)) (fun b => ∀ r ∈ b, FromCard doc r)
    _ b b' hb ?_ hb'
  intro c card c' hcard hc hc'
  rcases eachMatchCard_ok _ _ _ _ hc' with h1 | ⟨hh, ha, hs, hl, al, hhl, hal, h1⟩
  · rw [h1]; exact hc
  · rw [h1]
    intro r hr
    rcases List.mem_append.mp hr with hr | hr
    · exact hc r hr
    · simp only [List.mem_singleton] at hr
      subst hr
      exact ⟨sec, hsec, card, hcard, hh, ha, hs, hhl, hal, rfl, rfl, rfl, rfl⟩

theorem hasScore_of_exists (matchCard : Node)
    (h : ∃ n ∈ matchCard.descendants, isScoreSpan n = true) : hasScore matchCard = true := by
  obtain ⟨n, hn, hs⟩ := h
  have hmem : n ∈ find isScoreSpan matchCard := List.mem_filter.mpr ⟨hn, hs⟩
  unfold hasScore
  simp only [decide_eq_true_eq, gt_iff_lt]
  exact List.length_pos_of_mem hmem

theorem eachMatchCard_skip (leagueName : Str) (matchList : List Match) (matchCard : Node)
    (h : homeTeam matchCard = [] ∨ awayTeam matchCard = [] ∨ hasScore matchCard = true) :
    eachMatchCard leagueName matchList matchCard = .ok matchList := by
  unfold eachMatchCard
  rw [if_neg]
  rintro ⟨h1, h2, h3⟩
  rcases h with h | h | h
  · exact h1 h
  · exact h2 h
  · rw [h3] at h; cases h

/-- C1: a match card that contains a span whose class contains `__score__` pushes no
record: the loop body returns `matches` unchanged whatever the league, the names, the
images and the status text are, and the inner loop ends as if the card were not there. -/
theorem score_card_pushes_nothing (leagueName : Str) (matchList : List Match)
    (matchCard : Node) (h : ∃ n ∈ matchCard.descendants, isScoreSpan n = true) :
    eachMatchCard leagueName matchList matchCard = .ok matchList ∧
    ∀ (before after : List Node) (init : List Match),
      (before ++ matchCard :: after).foldlM (eachMatchCard leagueName) init =
        (before ++ after).foldlM (eachMatchCard leagueName) init := by
  have hskip : ∀ ml, eachMatchCard leagueName ml matchCard = .ok ml := fun ml =>
    eachMatchCard_skip leagueName ml matchCard (Or.inr (Or.inr (hasScore_of_exists _ h)))
  refine ⟨hskip matchList, ?_⟩
  intro before after init
  simp only [List.foldlM_append, List.foldlM_cons, hskip]
  rfl

/-- The theorem on a card that shows a score. -/
theorem score_card_pushes_nothing_witness :
    (∃ n ∈ liveCard.descendants, isScoreSpan n = true) ∧
    eachMatchCard (utf16 "Eredivisie") [] liveCard = .ok [] ∧
    ∀ (before after : List Node) (init : List Match),
      (before ++ liveCard :: after).foldlM (eachMatchCard (utf16 "Eredivisie")) init =
        (before ++ after).foldlM (eachMatchCard (utf16 "Eredivisie")) init :=
  ⟨by decide, score_card_pushes_nothing (utf16 "Eredivisie") [] liveCard (by decide)⟩

theorem homeTeam_trimmed (matchCard : Node) : trim (homeTeam matchCard) = homeTeam matchCard :=
  trim_idem _

theorem awayTeam_trimmed (matchCard : Node) : trim (awayTeam matchCard) = awayTeam matchCard :=
  trim_idem _

/-- C2: every record of `matches` has `home` and `away` non-empty and equal to their own
trim; the loop body pushes at most one record, and none for a card whose first or last
team-name span has empty trimmed text, which includes a card without such a span. -/
theorem names_nonempty_and_trimmed (doc : List Node) (ms : List Match)
    (h : extractMatches doc = .ok ms) :
    (∀ r ∈ ms, r.home ≠ [] ∧ r.away ≠ [] ∧ trim r.home = r.home ∧ trim r.away = r.away) ∧
    (∀ (leagueName : Str) (matchList out : List Match) (matchCard : Node),
      eachMatchCard leagueName matchList matchCard = .ok out →
      out = matchList ∨ ∃ r, out = matchList ++ [r] ∧ r.home ≠ [] ∧ r.away ≠ [] ∧
        trim r.home = r.home ∧ trim r.away = r.away) ∧
    (∀ (leagueName : Str) (matchList : List Match) (matchCard : Node),
      trim (textOfList (first (find isNameSpan matchCard))) = [] ∨
        trim (textOfList (last (find isNameSpan matchCard))) = [] →
      eachMatchCard leagueName matchList matchCard = .ok matchList) ∧
    (∀ (leagueName : Str) (matchList : List Match) (matchCard : Node),
      find isNameSpan matchCard = [] →
      eachMatchCard leagueName matchList matchCard = .ok matchList) := by
  refine ⟨?_, ?_, ?_, ?_⟩
  · intro r hr
    obtain ⟨sec, _, card, _, hh, ha, _, _, _, _, hrh, hra, _⟩ :=
      extractMatches_fromCard doc ms h r hr
    rw [hrh, hra]
    exact ⟨hh, ha, homeTeam_trimmed card, awayTeam_trimmed card⟩
  · intro leagueName matchList out matchCard hout
    rcases eachMatchCard_ok _ _ _ _ hout with h1 | ⟨hh, ha, _, hl, al, _, _, h1⟩
    · exact Or.inl h1
    · exact Or.inr ⟨_, h1, hh, ha, homeTeam_trimmed matchCard, awayTeam_trimmed matchCard⟩
  · intro leagueName matchList matchCard hempty
    apply eachMatchCard_skip
    rcases hempty with h1 | h1
    · exact Or.inl h1
    · exact Or.inr (Or.inl h1)
  · intro leagueName matchList matchCard hnone
    apply eachMatchCard_skip
    left
    unfold homeTeam
    rw [hnone]
    rfl

/-- The theorem on a section with a named card and a card without names. -/
theorem names_nonempty_and_trimmed_witness :
    extractMatches [sectionOf [upcomingCard, namelessCard]] = .ok [ajaxPsv "20:45"] ∧
    (∀ r ∈ [ajaxPsv "20:45"],
      r.home ≠ [] ∧ r.away ≠ [] ∧ trim r.home = r.home ∧ trim r.away = r.away) ∧
    find isNameSpan namelessCard = [] ∧
    eachMatchCard (utf16 "Liga") [] namelessCard = .ok [] :=
  ⟨by decide,
   (names_nonempty_and_trimmed [sectionOf [upcomingCard, namelessCard]] [ajaxPsv "20:45"]
     (by decide)).1,
   rfl,
   (names_nonempty_and_trimmed [sectionOf [upcomingCard, namelessCard]] [ajaxPsv "20:45"]
     (by decide)).2.2.2 (utf16 "Liga") [] namelessCard rfl⟩

theorem head?_eq_of_first (sel : List Node) :
    (first sel).length ≠ 0 → ∃ e, sel.head? = some e ∧ textOfList (first sel) = e.textContent := by
  cases sel with
  | nil => intro h; exact absurd rfl h
  | cons e es =>
    intro _
    refine ⟨e, rfl, ?_⟩
    simp [first, textOfList]

theorem first_length_zero (sel : List Node) (h : ¬ (first sel).length ≠ 0) : sel.head? = none := by
  cases sel with
  | nil => rfl
  | cons e es => exact absurd (by simp [first]) h

/-- The status text the code reads is the candidate of the specification. -/
theorem timeStatus_eq_candidate (matchCard : Node) :
    timeStatus matchCard = statusCandidate matchCard := by
  unfold timeStatus statusCandidate
  simp only
  split
  · rename_i hs
    obtain ⟨e, he, ht⟩ := head?_eq_of_first _ hs
    rw [he, ht]
  · rename_i hs
    rw [first_length_zero _ hs]
    split
    · rename_i ht
      obtain ⟨e, he, hte⟩ := head?_eq_of_first _ ht
      rw [he, hte]
    · rename_i ht
      rw [first_length_zero _ ht]

theorem orElse_some (s d : Str) : orElse (some s) d = if s = [] then d else s := by
  cases s <;> simp [orElse]

/-- C10: the `timeStatus` of every record is the trimmed text of the first status-message
span of its card when there is one, else that of the first `time` element when there is
one, else empty, replaced by the literal `VS` when that text is empty; it is never
empty, and it is `VS` for a card without status span and `time` element. -/
theorem timeStatus_rule (doc : List Node) (ms : List Match) (h : extractMatches doc = .ok ms) :
    (∀ r ∈ ms, r.timeStatus ≠ [] ∧
      ∃ sec ∈ select isSection doc, ∃ matchCard ∈ find isMatchCard sec,
        r.home = homeTeam matchCard ∧ r.away = awayTeam matchCard ∧
        r.timeStatus = specifiedStatus matchCard) ∧
    (∀ (leagueName : Str) (matchList out : List Match) (matchCard : Node),
      eachMatchCard leagueName matchList matchCard = .ok out →
      out = matchList ∨ ∃ r, out = matchList ++ [r] ∧
        r.timeStatus = specifiedStatus matchCard ∧ r.timeStatus ≠ [] ∧
        (find isInfoMessage matchCard = [] → find (isTag "time") matchCard = [] →
          r.timeStatus = utf16 "VS")) := by
  have hne : ∀ card, specifiedStatus card ≠ [] := by
    intro card
    unfold specifiedStatus
    split
    · decide
    · assumption
  have hspec : ∀ card, orElse (some (timeStatus card)) (utf16 "VS") = specifiedStatus card := by
    intro card
    rw [orElse_some, timeStatus_eq_candidate]
    rfl
  refine ⟨?_, ?_⟩
  · intro r hr
    obtain ⟨sec, hsec, card, hcard, _, _, _, _, _, _, hrh, hra, hts⟩ :=
      extractMatches_fromCard doc ms h r hr
    rw [hspec] at hts
    exact ⟨hts ▸ hne card, sec, hsec, card, hcard, hrh, hra, hts⟩
  · intro leagueName matchList out matchCard hout
    rcases eachMatchCard_ok _ _ _ _ hout with h1 | ⟨_, _, _, hl, al, _, _, h1⟩
    · exact Or.inl h1
    · refine Or.inr ⟨_, h1, hspec matchCard, ?_, ?_⟩
      · show orElse (some (timeStatus matchCard)) (utf16 "VS") ≠ []
        rw [hspec]; exact hne matchCard
      · intro hi ht
        show orElse (some (timeStatus matchCard)) (utf16 "VS") = utf16 "VS"
        rw [hspec]
        unfold specifiedStatus statusCandidate
        rw [hi, ht]
        rfl

/-- The theorem on a card with a kick-off time and a card without status text. -/
theorem timeStatus_rule_witness :
    extractMatches [sectionOf [upcomingCard, cardOf teamSpans]] =
      .ok [ajaxPsv "20:45", ajaxPsv "VS"] ∧
    ∀ r ∈ [ajaxPsv "20:45", ajaxPsv "VS"],
      r.timeStatus ≠ [] ∧
      ∃ sec ∈ select isSection [sectionOf [upcomingCard, cardOf teamSpans]],
        ∃ matchCard ∈ find isMatchCard sec,
          r.home = homeTeam matchCard ∧ r.away = awayTeam matchCard ∧
          r.timeStatus = specifiedStatus matchCard :=
  ⟨by decide,
   (timeStatus_rule [sectionOf [upcomingCard, cardOf teamSpans]]
     [ajaxPsv "20:45", ajaxPsv "VS"] (by decide)).1⟩

/-! ## Lemmas: counting records and cards -/

theorem eachMatchCard_length (leagueName : Str) (matchList out : List Match) (matchCard : Node)
    (h : eachMatchCard leagueName matchList matchCard = .ok out) :
    out.length ≤ matchList.length + 1 := by
  rcases eachMatchCard_ok _ _ _ _ h with h1 | ⟨_, _, _, hl, al, _, _, h1⟩
  · rw [h1]; omega
  · rw [h1]; simp

theorem foldlM_length_bound {α : Type} (f : List Match → α → Except URIError (List Match))
    (cost : α → Nat) (hf : ∀ b a b', f b a = .ok b' → b'.length ≤ b.length + cost a) :
    ∀ (l : List α) (init r : List Match), l.foldlM f init = .ok r →
      r.length ≤ init.length + (l.map cost).sum
  | [], init, r, h => by
    simp only [List.foldlM_nil, pure, Except.pure, Except.ok.injEq] at h
    subst h
    simp
  | a :: l, init, r, h => by
    simp only [List.foldlM_cons, bind, Except.bind] at h
    cases hfa : f init a with
    | error e => rw [hfa] at h; cases h
    | ok b =>
      rw [hfa] at h
      have h1 := foldlM_length_bound f cost hf l b r h
      have h2 := hf init a b hfa
      simp only [List.map_cons, List.sum_cons]
      omega

theorem eachSection_length (matchList out : List Match) (sec : Node)
    (h : eachSection matchList sec = .ok out) :
    out.length ≤ matchList.length + (find isMatchCard sec).length := by
  unfold eachSection at h
  have := foldlM_length_bound (eachMatchCard (league sec)) (fun _ => 1)
    (fun b a b' hb => eachMatchCard_length _ b b' a hb) _ _ _ h
  simpa using this

theorem extractMatches_length (doc : List Node) (ms : List Match)
    (h : extractMatches doc = .ok ms) : ms.length ≤ cardsInSections (descendantsOfList doc) := by
  unfold extractMatches at h
  have := foldlM_length_bound eachSection (fun sec => (find isMatchCard sec).length)
    (fun b a b' hb => eachSection_length b b' a hb) _ _ _ h
  simpa [cardsInSections, select] using this

theorem cardsInSections_append (l1 l2 : List Node) :
    cardsInSections (l1 ++ l2) = cardsInSections l1 + cardsInSections l2 := by
  simp [cardsInSections]

theorem cardsInSections_eq_zero (l : List Node) (h : l.filter isSection = []) :
    cardsInSections l = 0 := by
  simp [cardsInSections, h]

mutual
theorem node_cards_bound : ∀ (n : Node),
    (∀ s ∈ n.descendants, isSection s = true → find isSection s = []) →
    cardsInSections n.descendants ≤ (n.descendants.filter isMatchCard).length
  | .text _, _ => by simp [Node.descendants, cardsInSections]
  | .comment _, _ => by simp [Node.descendants, cardsInSections]
  | .elem _ _ cs, h => by
    simp only [Node.descendants] at h ⊢
    exact list_cards_bound cs h
theorem list_cards_bound : ∀ (f : List Node),
    (∀ s ∈ descendantsOfList f, isSection s = true → find isSection s = []) →
    cardsInSections (descendantsOfList f) ≤ ((descendantsOfList f).filter isMatchCard).length
  | [], _ => by simp [descendantsOfList, cardsInSections]
  | c :: cs, h => by
    simp only [descendantsOfList] at h ⊢
    have hc := node_cards_bound c (fun s hs => h s (by simp [hs]))
    have hcs := list_cards_bound cs (fun s hs => h s (by simp [hs]))
    have hsplit : cardsInSections (c :: (c.descendants ++ descendantsOfList cs)) =
        cardsInSections [c] + (cardsInSections c.descendants +
          cardsInSections (descendantsOfList cs)) := by
      rw [← cardsInSections_append, ← cardsInSections_append]; rfl
    rw [hsplit]
    have hlen : ((c :: (c.descendants ++ descendantsOfList cs)).filter isMatchCard).length =
        ([c].filter isMatchCard).length + ((c.descendants.filter isMatchCard).length +
          ((descendantsOfList cs).filter isMatchCard).length) := by
      rw [← List.length_append, ← List.length_append, ← List.filter_append,
        ← List.filter_append]; rfl
    rw [hlen]
    by_cases hsec : isSection c = true
    · have hnone : find isSection c = [] := h c (by simp) hsec
      have h0 : cardsInSections c.descendants = 0 := cardsInSections_eq_zero _ hnone
      have h1 : cardsInSections [c] = (c.descendants.filter isMatchCard).length := by
        simp [cardsInSections, hsec, find]
      omega
    · have h1 : cardsInSections [c] = 0 := by
        simp [cardsInSections, hsec]
      omega
end

/-- C3 (as stated, refuted): on a page with a league section inside a league section
the one match card is visited from both, so `matches` gets two records for one card. -/
theorem nested_sections_count_twice :
    ¬ ∀ (doc : List Node) (ms : List Match), extractMatches doc = .ok ms →
      ms.length ≤ (select isMatchCard doc).length := by
  intro h
  have h2 := h nestedPage [ajaxPsv "VS", ajaxPsv "VS"] (by decide)
  have h1 : (select isMatchCard nestedPage).length = 1 := by rfl
  rw [h1] at h2
  exact absurd h2 (by decide)

/-- C3 (amended): when no league section lies inside another one, `matches` has at most
as many records as the document has match-card elements; on every page it has at most
as many records as there are pairs of a league section and a match card inside it. -/
theorem matches_length_le_cards (doc : List Node) (ms : List Match)
    (h : extractMatches doc = .ok ms) :
    ms.length ≤ cardsInSections (descendantsOfList doc) ∧
    (NoNestedSections doc → ms.length ≤ (select isMatchCard doc).length) := by
  refine ⟨extractMatches_length doc ms h, ?_⟩
  intro hn
  have hb := list_cards_bound doc (fun s hs hsec =>
    List.isEmpty_iff.mp (List.all_eq_true.mp hn s (List.mem_filter.mpr ⟨hs, hsec⟩)))
  exact Nat.le_trans (extractMatches_length doc ms h) hb

/-- The theorem on a page with two league sections side by side. -/
theorem matches_length_le_cards_witness :
    extractMatches [sectionOf [upcomingCard, liveCard], sectionOf [cardOf teamSpans]] =
      .ok [ajaxPsv "20:45", ajaxPsv "VS"] ∧
    NoNestedSections [sectionOf [upcomingCard, liveCard], sectionOf [cardOf teamSpans]] ∧
    [ajaxPsv "20:45", ajaxPsv "VS"].length ≤
      (select isMatchCard
        [sectionOf [upcomingCard, liveCard], sectionOf [cardOf teamSpans]]).length :=
  ⟨by decide, by decide,
   (matches_length_le_cards [sectionOf [upcomingCard, liveCard], sectionOf [cardOf teamSpans]]
     [ajaxPsv "20:45", ajaxPsv "VS"] (by decide)).2 (by decide)⟩

/-! ## Lemmas: `split` and `decodeURIComponent` -/

theorem splitGo_of_not_includes (sep : Str) :
    ∀ (s acc : Str), includes s sep = false → splitGo sep s 0 acc = [acc.reverse ++ s]
  | [], acc, _ => by simp [splitGo]
  | c :: cs, acc, h => by
    simp only [includes, Bool.or_eq_false_iff] at h
    simp only [splitGo, h.1, Bool.false_eq_true, if_false]
    rw [splitGo_of_not_includes sep cs (c :: acc) h.2]
    simp

theorem split_of_not_includes (s sep : Str) (h : includes s sep = false) :
    split s sep = [s] := by
  unfold split
  rw [splitGo_of_not_includes sep s [] h]
  rfl

theorem decodeGo_of_no_percent :
    ∀ (s : Str), 37 ∉ s → decodeGo s 0 = .ok s
  | [], _ => rfl
  | c :: cs, h => by
    have hc : c ≠ 37 := fun e => h (by simp [e])
    have hcs : 37 ∉ cs := fun e => h (by simp [e])
    rw [decodeGo, if_neg hc, decodeGo_of_no_percent cs hcs]
    rfl

theorem decode_of_no_percent (s : Str) (h : 37 ∉ s) : decodeURIComponent s = .ok s :=
  decodeGo_of_no_percent s h

theorem logoUrl_of_not_includes (src : Str) (hne : src ≠ [])
    (h : includes src (utf16 "image=") = false) :
    logoUrl (some src) = decodeURIComponent src := by
  cases src with
  | nil => exact absurd rfl hne
  | cons c cs =>
    simp only [logoUrl]
    rw [split_of_not_includes _ _ h]
    rfl

theorem foldlM_total {α β ε : Type} (f : β → α → Except ε β) :
    ∀ (l : List α) (init : β), (∀ b, ∀ a ∈ l, ∃ b', f b a = .ok b') →
      ∃ r, l.foldlM f init = .ok r
  | [], init, _ => ⟨init, rfl⟩
  | a :: l, init, h => by
    obtain ⟨b, hb⟩ := h init a (by simp)
    obtain ⟨r, hr⟩ := foldlM_total f l b (fun b1 a1 ha1 => h b1 a1 (by simp [ha1]))
    refine ⟨r, ?_⟩
    simp only [List.foldlM_cons, bind, Except.bind, hb]
    exact hr

/-- The decoding of a logo address is the only call of the extraction loop that can
throw: when it returns for both logos of every match card of every league section, the
loop ends normally, whichever elements the cards lack. -/
theorem extractMatches_total (doc : List Node)
    (h : ∀ sec ∈ select isSection doc, ∀ matchCard ∈ find isMatchCard sec,
      (∃ hl, logoUrl (homeLogo matchCard) = .ok hl) ∧
      (∃ al, logoUrl (awayLogo matchCard) = .ok al)) :
    ∃ ms, extractMatches doc = .ok ms := by
  unfold extractMatches
  apply foldlM_total
  intro b sec hsec
  unfold eachSection
  apply foldlM_total
  intro b1 matchCard hcard
  obtain ⟨⟨hl, hhl⟩, ⟨al, hal⟩⟩ := h sec hsec matchCard hcard
  unfold eachMatchCard
  rw [hhl, hal]
  split
  · exact ⟨_, rfl⟩
  · exact ⟨_, rfl⟩

/-- C4 (the code at the failing input): a logo address with a stray `%` makes
`decodeURIComponent` throw, the exception leaves the extraction loop, and the records
already pushed are lost with it; without that image the same cards give two records. -/
theorem stray_percent_aborts_extraction :
    extractMatches strayPercentPage = .error .malformed ∧
    extractMatches mixedPage = .error .malformed ∧
    extractMatches [sectionOf [upcomingCard, cardOf teamSpans]] =
      .ok [ajaxPsv "20:45", ajaxPsv "VS"] := by
  decide

/-- C5 (as stated, refuted): an address without `image=` is percent-decoded as well, so
`a%20b` is stored as `a b`. -/
theorem plain_src_is_decoded :
    ¬ ∀ (src : Str), src ≠ [] → includes src (utf16 "image=") = false →
      logoUrl (some src) = .ok src := by
  intro h
  exact absurd (h (utf16 "https://e.com/a%20b.png") (by decide) (by decide)) (by decide)

/-- C5 (amended): for a non-empty address without `image=` the logo URL is the
percent-decoding of the whole address; it is the address itself, character for
character, when the address holds no `%`, and then that is what the pushed record
stores as `homeLogo` and as `awayLogo`. -/
theorem plain_src_kept (src : Str) (hne : src ≠ [])
    (himg : includes src (utf16 "image=") = false) :
    logoUrl (some src) = decodeURIComponent src ∧
    (37 ∉ src → logoUrl (some src) = .ok src) ∧
    (37 ∉ src → ∀ (leagueName : Str) (matchList out : List Match) (matchCard : Node),
      eachMatchCard leagueName matchList matchCard = .ok out →
      out = matchList ∨ ∃ r, out = matchList ++ [r] ∧
        (homeLogo matchCard = some src → r.homeLogo = src) ∧
        (awayLogo matchCard = some src → r.awayLogo = src)) := by
  have h1 := logoUrl_of_not_includes src hne himg
  have h2 : 37 ∉ src → logoUrl (some src) = .ok src := fun hp => by
    rw [h1, decode_of_no_percent src hp]
  refine ⟨h1, h2, ?_⟩
  intro hp leagueName matchList out matchCard hout
  rcases eachMatchCard_ok _ _ _ _ hout with h3 | ⟨_, _, _, hl, al, hhl, hal, h3⟩
  · exact Or.inl h3
  · refine Or.inr ⟨_, h3, ?_, ?_⟩
    · intro hsrc
      rw [hsrc, h2 hp] at hhl
      exact (Except.ok.inj hhl).symm
    · intro hsrc
      rw [hsrc, h2 hp] at hal
      exact (Except.ok.inj hal).symm

/-- The theorem on a plain image address. -/
theorem plain_src_kept_witness :
    utf16 "https://e.com/a.png" ≠ [] ∧
    includes (utf16 "https://e.com/a.png") (utf16 "image=") = false ∧
    37 ∉ utf16 "https://e.com/a.png" ∧
    logoUrl (some (utf16 "https://e.com/a.png")) = .ok (utf16 "https://e.com/a.png") :=
  ⟨by decide, by decide, by decide,
   (plain_src_kept (utf16 "https://e.com/a.png") (by decide) (by decide)).2.1 (by decide)⟩

/-! ## Lemmas: the file name -/

theorem canonicalize_ascii (t : Nat → Str) (a : Nat) (h : a < 128) :
    canonicalize t a = asciiUpper a := by
  unfold canonicalize upperOfUnit
  rw [if_pos h]
  simp only
  rw [if_neg (by omega)]

theorem canonicalize_nonAscii (t : Nat → Str) (c : Nat) (h : 128 ≤ c) :
    128 ≤ canonicalize t c := by
  unfold canonicalize upperOfUnit
  rw [if_neg (by omega)]
  split
  · split
    · exact h
    · omega
  · exact h

theorem mem_classMembers (a : Nat) :
    a ∈ classMembers ↔ (97 ≤ a ∧ a ≤ 122) ∨ (48 ≤ a ∧ a ≤ 57) := by
  unfold classMembers
  simp only [List.mem_append, List.mem_range'_1]
  omega

/-- Under flag `i` without flag `u` the class `[^a-z0-9]` matches exactly the code units
outside `[A-Za-z0-9]`, whatever the Unicode case mapping is. -/
theorem matchesNonAlnum_eq (t : Nat → Str) (c : Nat) : matchesNonAlnum t c = !isAlnum c := by
  unfold matchesNonAlnum
  congr 1
  rw [Bool.eq_iff_iff, List.any_eq_true]
  constructor
  · rintro ⟨a, ha, hac⟩
    rw [mem_classMembers] at ha
    have ha128 : a < 128 := by omega
    rw [beq_iff_eq, canonicalize_ascii t a ha128] at hac
    by_cases hc : c < 128
    · rw [canonicalize_ascii t c hc] at hac
      unfold asciiUpper at hac
      unfold isAlnum
      simp only [Bool.or_eq_true, Bool.and_eq_true, decide_eq_true_eq]
      split_ifs at hac <;> omega
    · have := canonicalize_nonAscii t c (by omega)
      unfold asciiUpper at hac
      split_ifs at hac <;> omega
  · intro hc
    unfold isAlnum at hc
    simp only [Bool.or_eq_true, Bool.and_eq_true, decide_eq_true_eq] at hc
    have hc128 : c < 128 := by omega
    by_cases hup : 65 ≤ c ∧ c ≤ 90
    · refine ⟨c + 32, (mem_classMembers _).mpr (by omega), ?_⟩
      rw [beq_iff_eq, canonicalize_ascii t _ (by omega), canonicalize_ascii t c hc128]
      unfold asciiUpper
      split_ifs <;> omega
    · exact ⟨c, (mem_classMembers _).mpr (by omega), by simp⟩

theorem sanitize_eq_map (t : Nat → Str) :
    ∀ (s : Str), sanitize t s = s.map (fun c => if isAlnum c = true then c else 95)
  | [] => rfl
  | c :: cs => by
    have ih := sanitize_eq_map t cs
    unfold sanitize at ih ⊢
    rw [replaceAll, ih, matchesNonAlnum_eq]
    cases h : isAlnum c <;> simp [utf16, utf16EncodeCodePoint, h]

/-! ## Lemmas: runs -/

theorem bind_eq {α β : Type} (x : Run α) (f : α → Run β) : x >>= f = Run.andThen x f := rfl

theorem pure_eq {α : Type} (a : α) : (pure a : Run α) = { log := [], result := .ok a } := rfl

theorem calls_append (l1 l2 : List Event) : calls (l1 ++ l2) = calls l1 ++ calls l2 := by
  induction l1 with
  | nil => rfl
  | cons e es ih => cases e <;> simp [calls, ih]

theorem filesWritten_append (l1 l2 : List Event) :
    filesWritten (l1 ++ l2) = filesWritten l1 ++ filesWritten l2 := by
  induction l1 with
  | nil => rfl
  | cons e es ih => cases e <;> simp [filesWritten, ih]

/-- Every event of the run satisfies `P`. -/
theorem logAll_andThen {α β : Type} (P : Event → Prop) (x : Run α) (f : α → Run β)
    (hx : ∀ e ∈ x.log, P e) (hf : ∀ a, ∀ e ∈ (f a).log, P e) :
    ∀ e ∈ (x >>= f).log, P e := by
  rw [bind_eq]
  unfold Run.andThen
  split
  · exact hx
  · rename_i a _
    intro e he
    rcases List.mem_append.mp he with h | h
    · exact hx e h
    · exact hf a e h

theorem logAll_tryCatch {α : Type} (P : Event → Prop) (x : Run α) (h : Step → Run α)
    (hx : ∀ e ∈ x.log, P e) (hh : ∀ s, ∀ e ∈ (h s).log, P e) :
    ∀ e ∈ (Run.tryCatch x h).log, P e := by
  unfold Run.tryCatch
  split
  · exact hx
  · rename_i s _
    intro e he
    rcases List.mem_append.mp he with h1 | h1
    · exact hx e h1
    · exact hh s e h1

theorem logAll_attempt (P : Event → Prop) (w : World) (i : Nat) (s : Step) :
    ∀ e ∈ (attempt w i s).log, P e := by
  unfold attempt
  split <;> simp

theorem logAll_perform (P : Event → Prop) (w : World) (i : Nat) (s : Step) (ev : Event)
    (h : P ev) : ∀ e ∈ (perform w i s ev).log, P e := by
  unfold perform
  split <;> simp [h]

theorem logAll_emit (P : Event → Prop) (ev : Event) (h : P ev) :
    ∀ e ∈ (emit ev).log, P e := by
  simp [emit, h]

theorem logAll_pure (P : Event → Prop) : ∀ e ∈ (pure () : Run Unit).log, P e := by
  simp [pure_eq]

theorem logAll_drawHome (P : Event → Prop) (w : World) (i : Nat) (m : Match)
    (h1 : P (.drawHomeLogo m.homeLogo)) (h2 : P (.warnHome m.home)) :
    ∀ e ∈ (drawHome w i m).log, P e := by
  unfold drawHome
  apply logAll_tryCatch
  · split
    · exact logAll_andThen P _ _ (logAll_attempt P w i _) (fun _ => logAll_perform P w i _ _ h1)
    · exact logAll_pure P
  · exact fun _ => logAll_emit P _ h2

theorem logAll_drawAway (P : Event → Prop) (w : World) (i : Nat) (m : Match)
    (h1 : P (.drawAwayLogo m.awayLogo)) (h2 : P (.warnAway m.away)) :
    ∀ e ∈ (drawAway w i m).log, P e := by
  unfold drawAway
  apply logAll_tryCatch
  · split
    · exact logAll_andThen P _ _ (logAll_attempt P w i _) (fun _ => logAll_perform P w i _ _ h1)
    · exact logAll_pure P
  · exact fun _ => logAll_emit P _ h2

theorem calls_eq_nil_of_notCall : ∀ (l : List Event), (∀ e ∈ l, notCall e) → calls l = []
  | [], _ => rfl
  | e :: es, h => by
    have he := h e (by simp)
    have hes := calls_eq_nil_of_notCall es (fun e' he' => h e' (by simp [he']))
    cases e <;> first | simpa [calls] using hes | exact False.elim he

theorem filesWritten_eq_nil_of_notWrite :
    ∀ (l : List Event), (∀ e ∈ l, notWrite e) → filesWritten l = []
  | [], _ => rfl
  | e :: es, h => by
    have he := h e (by simp)
    have hes := filesWritten_eq_nil_of_notWrite es (fun e' he' => h e' (by simp [he']))
    cases e <;> first | simpa [filesWritten] using hes | exact False.elim he

theorem posterBody_notCall (w : World) (i : Nat) (m : Match) :
    ∀ e ∈ (posterBody w i m).log, notCall e := by
  unfold posterBody
  refine logAll_andThen _ _ _ (logAll_attempt _ w i _) (fun _ => ?_)
  refine logAll_andThen _ _ _ (logAll_perform _ w i _ _ trivial) (fun _ => ?_)
  refine logAll_andThen _ _ _ (logAll_perform _ w i _ _ trivial) (fun _ => ?_)
  refine logAll_andThen _ _ _ (logAll_attempt _ w i _) (fun _ => ?_)
  refine logAll_andThen _ _ _ (logAll_attempt _ w i _) (fun _ => ?_)
  refine logAll_andThen _ _ _ (logAll_perform _ w i _ _ trivial) (fun _ => ?_)
  refine logAll_andThen _ _ _ (logAll_perform _ w i _ _ trivial) (fun _ => ?_)
  refine logAll_andThen _ _ _ (logAll_drawHome _ w i m trivial trivial) (fun _ => ?_)
  refine logAll_andThen _ _ _ (logAll_drawAway _ w i m trivial trivial) (fun _ => ?_)
  refine logAll_andThen _ _ _ (logAll_perform _ w i _ _ trivial) (fun _ => ?_)
  refine logAll_andThen _ _ _ (logAll_perform _ w i _ _ trivial) (fun _ => ?_)
  refine logAll_andThen _ _ _ (logAll_attempt _ w i _) (fun _ => ?_)
  refine logAll_andThen _ _ _ (logAll_perform _ w i _ _ trivial) (fun _ => ?_)
  refine logAll_andThen _ _ _ (logAll_perform _ w i _ _ trivial) (fun _ => ?_)
  refine logAll_andThen _ _ _ (logAll_attempt _ w i _) (fun _ => ?_)
  refine logAll_andThen _ _ _ (logAll_perform _ w i _ _ trivial) (fun _ => ?_)
  refine logAll_andThen _ _ _ (logAll_perform _ w i _ _ trivial) (fun _ => ?_)
  refine logAll_andThen _ _ _ (logAll_attempt _ w i _) (fun _ => ?_)
  refine logAll_andThen _ _ _ (logAll_perform _ w i _ _ trivial) (fun _ => ?_)
  exact logAll_emit _ _ trivial

theorem filesWritten_andThen_le {α β : Type} (x : Run α) (f : α → Run β)
    (hx : ∀ e ∈ x.log, notWrite e) (hf : ∀ a, (filesWritten (f a).log).length ≤ 1) :
    (filesWritten (x >>= f).log).length ≤ 1 := by
  rw [bind_eq]
  unfold Run.andThen
  split
  · rw [filesWritten_eq_nil_of_notWrite _ hx]; simp
  · rename_i a _
    rw [filesWritten_append, filesWritten_eq_nil_of_notWrite _ hx]
    exact hf a

theorem posterBody_filesWritten (w : World) (i : Nat) (m : Match) :
    (filesWritten (posterBody w i m).log).length ≤ 1 := by
  unfold posterBody
  refine filesWritten_andThen_le _ _ (logAll_attempt _ w i _) (fun _ => ?_)
  refine filesWritten_andThen_le _ _ (logAll_perform _ w i _ _ trivial) (fun _ => ?_)
  refine filesWritten_andThen_le _ _ (logAll_perform _ w i _ _ trivial) (fun _ => ?_)
  refine filesWritten_andThen_le _ _ (logAll_attempt _ w i _) (fun _ => ?_)
  refine filesWritten_andThen_le _ _ (logAll_attempt _ w i _) (fun _ => ?_)
  refine filesWritten_andThen_le _ _ (logAll_perform _ w i _ _ trivial) (fun _ => ?_)
  refine filesWritten_andThen_le _ _ (logAll_perform _ w i _ _ trivial) (fun _ => ?_)
  refine filesWritten_andThen_le _ _ (logAll_drawHome _ w i m trivial trivial) (fun _ => ?_)
  refine filesWritten_andThen_le _ _ (logAll_drawAway _ w i m trivial trivial) (fun _ => ?_)
  refine filesWritten_andThen_le _ _ (logAll_perform _ w i _ _ trivial) (fun _ => ?_)
  refine filesWritten_andThen_le _ _ (logAll_perform _ w i _ _ trivial) (fun _ => ?_)
  refine filesWritten_andThen_le _ _ (logAll_attempt _ w i _) (fun _ => ?_)
  refine filesWritten_andThen_le _ _ (logAll_perform _ w i _ _ trivial) (fun _ => ?_)
  refine filesWritten_andThen_le _ _ (logAll_perform _ w i _ _ trivial) (fun _ => ?_)
  refine filesWritten_andThen_le _ _ (logAll_attempt _ w i _) (fun _ => ?_)
  refine filesWritten_andThen_le _ _ (logAll_perform _ w i _ _ trivial) (fun _ => ?_)
  refine filesWritten_andThen_le _ _ (logAll_perform _ w i _ _ trivial) (fun _ => ?_)
  refine filesWritten_andThen_le _ _ (logAll_attempt _ w i _) (fun _ => ?_)
  rw [bind_eq]
  unfold Run.andThen perform emit
  split_ifs <;> simp [filesWritten]

theorem tryCatch_emit_result (x : Run Unit) (h : Step → Event) :
    (Run.tryCatch x (fun e => emit (h e))).result = .ok () := by
  unfold Run.tryCatch
  split <;> rfl

theorem attempt_ok (w : World) (i : Nat) (s : Step) (h : w.fails i s = false) :
    attempt w i s = { log := [], result := .ok () } := by
  unfold attempt; rw [h]; rfl

theorem attempt_error (w : World) (i : Nat) (s : Step) (h : w.fails i s = true) :
    attempt w i s = { log := [], result := .error s } := by
  unfold attempt; rw [h]; rfl

theorem andThen_mk_ok {α β : Type} (l : List Event) (a : α) (f : α → Run β) :
    Run.andThen { log := l, result := .ok a } f =
      { log := l ++ (f a).log, result := (f a).result } := rfl

theorem andThen_mk_error {α β : Type} (l : List Event) (e : Step) (f : α → Run β) :
    Run.andThen ({ log := l, result := .error e } : Run α) f =
      { log := l, result := .error e } := rfl

/-- The three ways `generatePoster` can go: only the two calls before its `try` can
throw out of it. -/
theorem generatePoster_eq (w : World) (i : Nat) (m : Match) :
    generatePoster w i m =
      if w.fails i .createCanvas = true then { log := [.call m], result := .error .createCanvas }
      else if w.fails i .getContext = true then
        { log := [.call m], result := .error .getContext }
      else
        { log := .call m :: (Run.tryCatch (posterBody w i m)
            (fun e => emit (.logError m.home m.away e))).log, result := .ok () } := by
  unfold generatePoster
  simp only [bind_eq, emit]
  cases h1 : w.fails i .createCanvas
  · cases h2 : w.fails i .getContext
    · rw [attempt_ok w i _ h1, attempt_ok w i _ h2]
      simp only [andThen_mk_ok, List.nil_append, List.singleton_append, Bool.false_eq_true,
        if_false]
      congr 1
      exact tryCatch_emit_result _ _
    · rw [attempt_ok w i _ h1, attempt_error w i _ h2]
      simp [andThen_mk_ok, andThen_mk_error]
  · rw [attempt_error w i _ h1]
    simp [andThen_mk_ok, andThen_mk_error]

theorem generatePoster_result (w : World) (i : Nat) (m : Match) :
    (generatePoster w i m).result =
      if w.fails i .createCanvas = true then .error .createCanvas
      else if w.fails i .getContext = true then .error .getContext
      else .ok () := by
  rw [generatePoster_eq]
  split_ifs <;> rfl

theorem generatePoster_calls (w : World) (i : Nat) (m : Match) :
    calls (generatePoster w i m).log = [m] := by
  have hbody : calls (Run.tryCatch (posterBody w i m)
      (fun e => emit (.logError m.home m.away e))).log = [] := by
    apply calls_eq_nil_of_notCall
    exact logAll_tryCatch notCall _ _ (posterBody_notCall w i m)
      (fun _ => logAll_emit _ _ trivial)
  rw [generatePoster_eq]
  split_ifs
  · rfl
  · rfl
  · simp only [calls, hbody]

theorem generatePoster_filesWritten (w : World) (i : Nat) (m : Match) :
    (filesWritten (generatePoster w i m).log).length ≤ 1 := by
  have hbody : (filesWritten (Run.tryCatch (posterBody w i m)
      (fun e => emit (.logError m.home m.away e))).log).length ≤ 1 := by
    unfold Run.tryCatch
    split
    · exact posterBody_filesWritten w i m
    · rw [filesWritten_append]
      simpa [emit, filesWritten] using posterBody_filesWritten w i m
  rw [generatePoster_eq]
  split_ifs
  · simp [filesWritten]
  · simp [filesWritten]
  · simpa only [filesWritten] using hbody

/-! ## Lemmas: the render loop -/

theorem slice_zero_ten {α : Type} (xs : List α) : slice xs 0 10 = xs.take 10 := by
  unfold slice
  simp only [lt_self_iff_false, if_false]
  have h0 : min (0 : Int) (xs.length : Int) = 0 := by omega
  have h10 : ¬ ((10 : Int) < 0) := by omega
  simp only [h0, h10, if_false, Int.toNat_zero, List.drop_zero, sub_zero]
  by_cases h : xs.length ≤ 10
  · have : min (10 : Int) (xs.length : Int) = xs.length := by omega
    rw [this, Int.toNat_ofNat, List.take_of_length_le h, List.take_of_length_le (le_refl _)]
  · have : min (10 : Int) (xs.length : Int) = 10 := by omega
    rw [this]
    rfl

theorem renderFrom_calls_initial (w : World) :
    ∀ (ms : List Match) (i : Nat), calls (renderFrom w i ms).log <+: ms
  | [], _ => by simp [renderFrom, pure_eq, calls]
  | m :: ms, i => by
    unfold renderFrom
    rw [bind_eq]
    unfold Run.andThen
    split
    · rw [generatePoster_calls]
      exact List.prefix_cons_inj m |>.mpr (List.nil_prefix)
    · rw [calls_append, generatePoster_calls]
      exact List.prefix_cons_inj m |>.mpr (renderFrom_calls_initial w ms (i + 1))

theorem renderFrom_filesWritten (w : World) :
    ∀ (ms : List Match) (i : Nat), (filesWritten (renderFrom w i ms).log).length ≤ ms.length
  | [], _ => by simp [renderFrom, pure_eq, filesWritten]
  | m :: ms, i => by
    unfold renderFrom
    rw [bind_eq]
    unfold Run.andThen
    have h1 := generatePoster_filesWritten w i m
    split
    · simp only [List.length_cons]; omega
    · rw [filesWritten_append, List.length_append]
      have h2 := renderFrom_filesWritten w ms (i + 1)
      simp only [List.length_cons]; omega

theorem renderFrom_complete (w : World) :
    ∀ (ms : List Match) (i : Nat),
      (∀ j, i ≤ j → j < i + ms.length →
        w.fails j .createCanvas = false ∧ w.fails j .getContext = false) →
      (renderFrom w i ms).result = .ok () ∧ calls (renderFrom w i ms).log = ms
  | [], _, _ => by simp [renderFrom, pure_eq, calls]
  | m :: ms, i, hw => by
    have hi := hw i (le_refl i) (by simp)
    have hr : (generatePoster w i m).result = .ok () := by
      rw [generatePoster_result, hi.1, hi.2]; rfl
    have ih := renderFrom_complete w ms (i + 1) (fun j h1 h2 =>
      hw j (by omega) (by simp only [List.length_cons]; omega))
    unfold renderFrom
    rw [bind_eq]
    unfold Run.andThen
    split
    · rename_i e he; rw [hr] at he; cases he
    · exact ⟨ih.1, by rw [calls_append, generatePoster_calls, ih.2]; rfl⟩

/-! ## Lemmas: the logo blocks and the full poster -/

theorem drawHome_eq (w : World) (i : Nat) (m : Match) :
    drawHome w i m = { log := homeLogoEvents w i m, result := .ok () } := by
  unfold drawHome homeLogoEvents
  by_cases hl : m.homeLogo = []
  · simp [hl, Run.tryCatch, pure_eq]
  · cases h1 : w.fails i .loadHomeLogo <;> cases h2 : w.fails i .drawHomeLogo <;>
      simp [hl, h1, h2, Run.tryCatch, bind_eq, Run.andThen, attempt, perform, emit]

theorem drawAway_eq (w : World) (i : Nat) (m : Match) :
    drawAway w i m = { log := awayLogoEvents w i m, result := .ok () } := by
  unfold drawAway awayLogoEvents
  by_cases hl : m.awayLogo = []
  · simp [hl, Run.tryCatch, pure_eq]
  · cases h1 : w.fails i .loadAwayLogo <;> cases h2 : w.fails i .drawAwayLogo <;>
      simp [hl, h1, h2, Run.tryCatch, bind_eq, Run.andThen, attempt, perform, emit]

/-- The poster when nothing but logo calls throws: every other layer is drawn and the
file is written. -/
theorem posterBody_of_logo_failures (w : World) (i : Nat) (m : Match)
    (hf : ∀ s, isLogoStep s = false → w.fails i s = false) :
    posterBody w i m =
      { log := [.drawBackground, .fillOverlay, .fillPill, .fillLeague (w.toUpperCase m.league)]
          ++ homeLogoEvents w i m ++ awayLogoEvents w i m ++
          [.fillVS, .fillStatus m.timeStatus, .fillHome m.home,
           .underlineHome (w.measureText m.home), .fillAway m.away,
           .underlineAway (w.measureText m.away),
           .writeFileSync (fileName w.nonAscii m), .logCreated (fileName w.nonAscii m)]
        result := .ok () } := by
  have h_loadBackground : w.fails i .loadBackground = false := hf .loadBackground rfl
  have h_drawBackground : w.fails i .drawBackground = false := hf .drawBackground rfl
  have h_fillOverlay : w.fails i .fillOverlay = false := hf .fillOverlay rfl
  have h_beginPath : w.fails i .beginPath = false := hf .beginPath rfl
  have h_roundRect : w.fails i .roundRect = false := hf .roundRect rfl
  have h_fillPill : w.fails i .fillPill = false := hf .fillPill rfl
  have h_fillLeague : w.fails i .fillLeague = false := hf .fillLeague rfl
  have h_fillVS : w.fails i .fillVS = false := hf .fillVS rfl
  have h_fillStatus : w.fails i .fillStatus = false := hf .fillStatus rfl
  have h_measureHome : w.fails i .measureHome = false := hf .measureHome rfl
  have h_fillHome : w.fails i .fillHome = false := hf .fillHome rfl
  have h_underlineHome : w.fails i .underlineHome = false := hf .underlineHome rfl
  have h_measureAway : w.fails i .measureAway = false := hf .measureAway rfl
  have h_fillAway : w.fails i .fillAway = false := hf .fillAway rfl
  have h_underlineAway : w.fails i .underlineAway = false := hf .underlineAway rfl
  have h_toBuffer : w.fails i .toBuffer = false := hf .toBuffer rfl
  have h_writeFileSync : w.fails i .writeFileSync = false := hf .writeFileSync rfl
  unfold posterBody
  simp only [attempt, perform, h_loadBackground, h_drawBackground, h_fillOverlay, h_beginPath,
    h_roundRect, h_fillPill, h_fillLeague, h_fillVS, h_fillStatus, h_measureHome, h_fillHome,
    h_underlineHome, h_measureAway, h_fillAway, h_underlineAway, h_toBuffer, h_writeFileSync,
    drawHome_eq, drawAway_eq, emit, bind_eq,
    andThen_mk_ok, Bool.false_eq_true, if_false, List.nil_append, List.append_nil,
    List.singleton_append, List.cons_append, List.append_assoc]

theorem generatePoster_of_logo_failures (w : World) (i : Nat) (m : Match)
    (hc : w.fails i .createCanvas = false) (hg : w.fails i .getContext = false)
    (hf : ∀ s, isLogoStep s = false → w.fails i s = false) :
    generatePoster w i m =
      { log := [.call m, .drawBackground, .fillOverlay, .fillPill,
                .fillLeague (w.toUpperCase m.league)]
          ++ homeLogoEvents w i m ++ awayLogoEvents w i m ++
          [.fillVS, .fillStatus m.timeStatus, .fillHome m.home,
           .underlineHome (w.measureText m.home), .fillAway m.away,
           .underlineAway (w.measureText m.away),
           .writeFileSync (fileName w.nonAscii m), .logCreated (fileName w.nonAscii m)]
        result := .ok () } := by
  rw [generatePoster_eq, hc, hg, posterBody_of_logo_failures w i m hf]
  simp [Run.tryCatch]

/-! ## The file name -/

/-- C7: the file `generatePoster` writes is named
`sanitize(home) ++ "_vs_" ++ sanitize(away) ++ ".png"`, where `sanitize` keeps the
length, keeps every code unit of `[A-Za-z0-9]` at its position, puts `_` for every other
code unit and is idempotent; `Real Madrid` and `Club América!!` give
`Real_Madrid_vs_Club_Am_rica__.png`. -/
theorem fileName_sanitized (w : World) :
    (∀ m : Match, fileName w.nonAscii m =
      sanitize w.nonAscii m.home ++ utf16 "_vs_" ++ sanitize w.nonAscii m.away ++
        utf16 ".png") ∧
    (∀ s : Str, (sanitize w.nonAscii s).length = s.length) ∧
    (∀ (s : Str) (i : Nat), (sanitize w.nonAscii s)[i]? =
      (s[i]?).map (fun c => if isAlnum c = true then c else 95)) ∧
    (∀ s : Str, sanitize w.nonAscii (sanitize w.nonAscii s) = sanitize w.nonAscii s) ∧
    (∀ leagueName hl al status : Str,
      fileName w.nonAscii { league := leagueName, home := utf16 "Real Madrid",
                            away := utf16 "Club América!!", homeLogo := hl, awayLogo := al,
                            timeStatus := status } =
        utf16 "Real_Madrid_vs_Club_Am_rica__.png") ∧
    (∀ (i : Nat) (m : Match), (∀ s, w.fails i s = false) →
      filesWritten (generatePoster w i m).log = [fileName w.nonAscii m]) := by
  refine ⟨fun _ => rfl, ?_, ?_, ?_, ?_, ?_⟩
  · intro s
    rw [sanitize_eq_map, List.length_map]
  · intro s i
    rw [sanitize_eq_map, List.getElem?_map]
  · intro s
    rw [sanitize_eq_map, sanitize_eq_map, List.map_map]
    apply List.map_congr_left
    intro c _
    simp only [Function.comp]
    by_cases h1 : isAlnum c = true
    · simp [h1]
    · have h95 : isAlnum 95 = false := by decide
      simp [h1, h95]
  · intro leagueName hl al status
    unfold fileName
    rw [sanitize_eq_map, sanitize_eq_map]
    show List.map (fun c => if isAlnum c = true then c else 95) (utf16 "Real Madrid") ++
      utf16 "_vs_" ++ List.map (fun c => if isAlnum c = true then c else 95)
        (utf16 "Club América!!") ++ utf16 ".png" = utf16 "Real_Madrid_vs_Club_Am_rica__.png"
    decide
  · intro i m hf
    rw [generatePoster_of_logo_failures w i m (hf _) (hf _) (fun s _ => hf s)]
    have hh : filesWritten (homeLogoEvents w i m) = [] := by
      unfold homeLogoEvents
      split_ifs <;> rfl
    have ha : filesWritten (awayLogoEvents w i m) = [] := by
      unfold awayLogoEvents
      split_ifs <;> rfl
    simp only [filesWritten_append, hh, ha]
    rfl

/-- The theorem in a world where nothing throws, on the fixture `Ajax` against `PSV`. -/
theorem fileName_sanitized_witness :
    (∀ s, { sampleWorld with fails := fun _ _ => false }.fails 0 s = false) ∧
    filesWritten (generatePoster { sampleWorld with fails := fun _ _ => false } 0
      sampleMatch).log = [utf16 "Ajax_vs_PSV.png"] :=
  ⟨fun _ => rfl,
   ((fileName_sanitized { sampleWorld with fails := fun _ _ => false }).2.2.2.2.2 0
      sampleMatch (fun _ => rfl)).trans (by decide)⟩

/-! ## The render loop and `generatePoster` -/

/-- C8 (as stated, refuted): the number of entries into `generatePoster` is not
`min(n, 10)` in every run.  `createCanvas` stands before the `try` of `generatePoster`,
so when it throws on the first of fifteen fixtures the exception leaves the loop after
one entry, on `matches[0]` alone, and no file is written. -/
theorem render_loop_cut_short :
    (¬ ∀ (w : World) (ms : List Match),
        (calls (renderLoop w ms).log).length = min ms.length 10) ∧
    (¬ ∀ (w : World) (ms : List Match), calls (renderLoop w ms).log = ms.take 10) ∧
    fifteen.length = 15 ∧
    calls (renderLoop noCanvasWorld fifteen).log = fifteen.take 1 ∧
    (renderLoop noCanvasWorld fifteen).result = .error .createCanvas ∧
    filesWritten (renderLoop noCanvasWorld fifteen).log = [] := by
  have h1 : calls (renderLoop noCanvasWorld fifteen).log = fifteen.take 1 := by decide
  refine ⟨?_, ?_, by decide, h1, by decide, by decide⟩
  · intro h
    have h2 := h noCanvasWorld fifteen
    rw [h1] at h2
    exact absurd h2 (by decide)
  · intro h
    have h2 := h noCanvasWorld fifteen
    rw [h1] at h2
    exact absurd h2 (by decide)

/-- C8 (amended): the loop runs over `matches.slice(0, 10)`, the first `min(n, 10)` fixtures in
extraction order; `generatePoster` is entered on a prefix of them, at most that many
files are written, and when no entry is left by an exception (the canvas and its
context are obtained each time) it is entered on exactly those fixtures, in order, so
that 15 fixtures give 10 render attempts. -/
theorem render_first_ten (w : World) (ms : List Match) :
    slice ms 0 10 = ms.take 10 ∧
    calls (renderLoop w ms).log <+: ms.take 10 ∧
    (filesWritten (renderLoop w ms).log).length ≤ min ms.length 10 ∧
    ((∀ i, i < 10 → w.fails i .createCanvas = false ∧ w.fails i .getContext = false) →
      (renderLoop w ms).result = .ok () ∧
      calls (renderLoop w ms).log = ms.take 10 ∧
      (calls (renderLoop w ms).log).length = min ms.length 10 ∧
      (∀ k, k < min ms.length 10 → (calls (renderLoop w ms).log)[k]? = ms[k]?) ∧
      (ms.length = 15 → (calls (renderLoop w ms).log).length = 10)) := by
  have hs := slice_zero_ten ms
  have hlen : (ms.take 10).length = min ms.length 10 := by
    rw [List.length_take]; omega
  refine ⟨hs, ?_, ?_, ?_⟩
  · unfold renderLoop
    rw [hs]
    exact renderFrom_calls_initial w _ 0
  · unfold renderLoop
    rw [hs, ← hlen]
    exact renderFrom_filesWritten w _ 0
  · intro hw
    have hc := renderFrom_complete w (ms.take 10) 0 (fun j _ hj => hw j (by
      rw [hlen] at hj; omega))
    unfold renderLoop
    rw [hs]
    refine ⟨hc.1, hc.2, ?_, ?_, ?_⟩
    · rw [hc.2, hlen]
    · intro k hk
      rw [hc.2, List.getElem?_take]
      rw [if_pos (by omega)]
    · intro h15
      rw [hc.2, hlen, h15]
      rfl

/-- The theorem on fifteen fixtures, the encoding of the third poster failing. -/
theorem render_first_ten_witness :
    (∀ i, i < 10 →
      sampleWorld.fails i .createCanvas = false ∧ sampleWorld.fails i .getContext = false) ∧
    (renderLoop sampleWorld fifteen).result = .ok () ∧
    calls (renderLoop sampleWorld fifteen).log = fifteen.take 10 ∧
    (calls (renderLoop sampleWorld fifteen).log).length = min fifteen.length 10 ∧
    (∀ k, k < min fifteen.length 10 →
      (calls (renderLoop sampleWorld fifteen).log)[k]? = fifteen[k]?) ∧
    (fifteen.length = 15 → (calls (renderLoop sampleWorld fifteen).log).length = 10) :=
  ⟨fun i _ => by simp [sampleWorld],
   (render_first_ten sampleWorld fifteen).2.2.2 (fun i _ => by simp [sampleWorld])⟩

/-- C9 (as stated, refuted): `createCanvas` is called before the `try` of `generatePoster`,
so its exception leaves `generatePoster` and the loop: of two fixtures the second is
never attempted. -/
theorem canvas_failure_propagates :
    (¬ ∀ (w : World) (i : Nat) (m : Match), (generatePoster w i m).result = .ok ()) ∧
    (renderLoop noCanvasWorld [sampleMatch, sampleMatch]).result = .error .createCanvas ∧
    calls (renderLoop noCanvasWorld [sampleMatch, sampleMatch]).log = [sampleMatch] := by
  refine ⟨?_, by decide, by decide⟩
  intro h
  exact absurd (h noCanvasWorld 0 sampleMatch) (by decide)

/-- C9 (amended): when the canvas and its context are obtained, no exception of a call
inside the `try` block (background, drawing, logos, encoding, file write) leaves
`generatePoster`; the loop then attempts every one of the first ten fixtures and ends
normally; and when only logo calls throw, each failing logo is replaced by its warning
while every other layer is drawn and the file is written. -/
theorem try_block_failures_contained (w : World) (i : Nat) (m : Match)
    (hc : w.fails i .createCanvas = false) (hg : w.fails i .getContext = false) :
    (generatePoster w i m).result = .ok () ∧
    (∀ ms : List Match,
      (∀ j, j < 10 → w.fails j .createCanvas = false ∧ w.fails j .getContext = false) →
      (renderLoop w ms).result = .ok () ∧ calls (renderLoop w ms).log = ms.take 10) ∧
    ((∀ s, isLogoStep s = false → w.fails i s = false) →
      (generatePoster w i m).log =
        [.call m, .drawBackground, .fillOverlay, .fillPill,
         .fillLeague (w.toUpperCase m.league)]
          ++ homeLogoEvents w i m ++ awayLogoEvents w i m ++
          [.fillVS, .fillStatus m.timeStatus, .fillHome m.home,
           .underlineHome (w.measureText m.home), .fillAway m.away,
           .underlineAway (w.measureText m.away),
           .writeFileSync (fileName w.nonAscii m), .logCreated (fileName w.nonAscii m)]) := by
  refine ⟨?_, ?_, ?_⟩
  · rw [generatePoster_result, hc, hg]; rfl
  · intro ms hw
    have hcpl := renderFrom_complete w (ms.take 10) 0 (fun j _ hj => hw j (by
      rw [List.length_take] at hj; omega))
    unfold renderLoop
    rw [slice_zero_ten]
    exact hcpl
  · intro hf
    rw [generatePoster_of_logo_failures w i m hc hg hf]

/-- The theorem on a failing PNG encoding and on a failing home-logo load. -/
theorem try_block_failures_contained_witness :
    sampleWorld.fails 2 .createCanvas = false ∧ sampleWorld.fails 2 .getContext = false ∧
    sampleWorld.fails 2 .toBuffer = true ∧
    (generatePoster sampleWorld 2 sampleMatch).result = .ok () ∧
    (noHomeLogoWorld.fails 0 .loadHomeLogo = true ∧
     (∀ s, isLogoStep s = false → noHomeLogoWorld.fails 0 s = false) ∧
     (generatePoster noHomeLogoWorld 0 sampleMatch).log =
       [.call sampleMatch, .drawBackground, .fillOverlay, .fillPill,
        .fillLeague (utf16 "LIGA"), .warnHome (utf16 "Ajax"),
        .drawAwayLogo (utf16 "https://e.com/psv.png"),
        .fillVS, .fillStatus (utf16 "20:45"), .fillHome (utf16 "Ajax"), .underlineHome 28,
        .fillAway (utf16 "PSV"), .underlineAway 21,
        .writeFileSync (utf16 "Ajax_vs_PSV.png"), .logCreated (utf16 "Ajax_vs_PSV.png")]) :=
  ⟨rfl, rfl, rfl,
   (try_block_failures_contained sampleWorld 2 sampleMatch rfl rfl).1,
   rfl, fun s hs => by cases s <;> first | rfl | exact absurd hs (by decide),
   ((try_block_failures_contained noHomeLogoWorld 0 sampleMatch rfl rfl).2.2
      (fun s hs => by cases s <;> first | rfl | exact absurd hs (by decide))).trans
     (by decide)⟩

/-! ## Lemmas: percent-encoding round trip -/

theorem hexVal_hexDigit (n : Nat) (h : n < 16) : hexVal (hexDigit n) = some n := by
  unfold hexVal hexDigit
  split_ifs <;> first | omega | (congr 1; omega)

theorem parseHexOctet_escape (b : Nat) (h : b < 256) :
    parseHexOctet (hexDigit (b / 16)) (hexDigit (b % 16)) = some b := by
  unfold parseHexOctet
  rw [hexVal_hexDigit _ (by omega), hexVal_hexDigit _ (by omega)]
  simp only [Option.some.injEq]
  omega

theorem decodeGo_skip : ∀ (l r : Str), decodeGo (l ++ r) l.length = decodeGo r 0
  | [], r => by cases r <;> rfl
  | c :: cs, r => by
    simp only [List.cons_append, List.length_cons, decodeGo]
    exact decodeGo_skip cs r

theorem decodeGo_percent (cs : Str) (decoded : Str) (taken : Nat)
    (h : readEscape cs = .ok (decoded, taken)) :
    decodeGo (37 :: cs) 0 = (decodeGo cs taken).map (fun r => decoded ++ r) := by
  rw [decodeGo, if_pos rfl, h]

theorem decode_escape_one (cp : Nat) (r : Str) (h : cp < 128) :
    decodeGo (escapeCodePoint cp ++ r) 0 =
      (decodeGo r 0).map (fun s => utf16EncodeCodePoint cp ++ s) := by
  have hu : utf8Encode cp = [cp] := by unfold utf8Encode; rw [if_pos h]
  have he : escapeCodePoint cp ++ r =
      37 :: ([hexDigit (cp / 16), hexDigit (cp % 16)] ++ r) := by
    simp [escapeCodePoint, hu, escapeOctet]
  have hr : readEscape ([hexDigit (cp / 16), hexDigit (cp % 16)] ++ r) = .ok ([cp], 2) := by
    simp only [List.cons_append, List.nil_append, readEscape,
      parseHexOctet_escape cp (by omega)]
    rw [if_pos (by unfold leadingOnes; rw [if_pos h])]
  rw [he, decodeGo_percent _ _ _ hr]
  have := decodeGo_skip [hexDigit (cp / 16), hexDigit (cp % 16)] r
  rw [show ([hexDigit (cp / 16), hexDigit (cp % 16)] : Str).length = 2 from rfl] at this
  rw [this]
  unfold utf16EncodeCodePoint
  rw [if_pos (by omega)]

theorem continuationOctet_escape (b : Nat) (h : b < 256) :
    continuationOctet 37 (hexDigit (b / 16)) (hexDigit (b % 16)) = some b := by
  unfold continuationOctet
  rw [if_pos rfl, parseHexOctet_escape b h]

theorem decode_escape_two (cp : Nat) (r : Str) (h1 : 128 ≤ cp) (h2 : cp < 2048) :
    decodeGo (escapeCodePoint cp ++ r) 0 =
      (decodeGo r 0).map (fun s => utf16EncodeCodePoint cp ++ s) := by
  have hu : utf8Encode cp = [192 + cp / 64, 128 + cp % 64] := by
    unfold utf8Encode; rw [if_neg (by omega), if_pos h2]
  generalize hb0 : 192 + cp / 64 = b0 at hu
  generalize hb1 : 128 + cp % 64 = b1 at hu
  have he : escapeCodePoint cp ++ r =
      37 :: ([hexDigit (b0 / 16), hexDigit (b0 % 16),
              37, hexDigit (b1 / 16), hexDigit (b1 % 16)] ++ r) := by
    simp [escapeCodePoint, hu, escapeOctet]
  have hl : leadingOnes b0 = 2 := by
    unfold leadingOnes
    rw [if_neg (by omega), if_neg (by omega), if_pos (by omega)]
  have hv : utf8CodePoint [b0, b1] = some cp := by
    have hc : isCont b1 = true := by unfold isCont; simp; omega
    simp only [utf8CodePoint, hc, and_true]
    rw [if_pos (by omega), Option.some.injEq]
    omega
  have hr : readEscape ([hexDigit (b0 / 16), hexDigit (b0 % 16),
      37, hexDigit (b1 / 16), hexDigit (b1 % 16)] ++ r) =
      .ok (utf16EncodeCodePoint cp, 5) := by
    simp only [List.cons_append, List.nil_append, readEscape,
      parseHexOctet_escape b0 (by omega), continuationOctet_escape b1 (by omega), hl]
    simp [decodedSequence, hv]
  rw [he, decodeGo_percent _ _ _ hr]
  have := decodeGo_skip [hexDigit (b0 / 16), hexDigit (b0 % 16),
      37, hexDigit (b1 / 16), hexDigit (b1 % 16)] r
  rw [show ([hexDigit (b0 / 16), hexDigit (b0 % 16),
      37, hexDigit (b1 / 16), hexDigit (b1 % 16)] : Str).length = 5 from rfl] at this
  rw [this]

theorem decode_escape_three (cp : Nat) (r : Str) (h1 : 2048 ≤ cp) (h2 : cp < 65536)
    (hs : cp < 55296 ∨ 57344 ≤ cp) :
    decodeGo (escapeCodePoint cp ++ r) 0 =
      (decodeGo r 0).map (fun s => utf16EncodeCodePoint cp ++ s) := by
  have hu : utf8Encode cp = [224 + cp / 4096, 128 + cp / 64 % 64, 128 + cp % 64] := by
    unfold utf8Encode; rw [if_neg (by omega), if_neg (by omega), if_pos h2]
  generalize hb0 : 224 + cp / 4096 = b0 at hu
  generalize hb1 : 128 + cp / 64 % 64 = b1 at hu
  generalize hb2 : 128 + cp % 64 = b2 at hu
  have he : escapeCodePoint cp ++ r =
      37 :: ([hexDigit (b0 / 16), hexDigit (b0 % 16),
              37, hexDigit (b1 / 16), hexDigit (b1 % 16),
              37, hexDigit (b2 / 16), hexDigit (b2 % 16)] ++ r) := by
    simp [escapeCodePoint, hu, escapeOctet]
  have hl : leadingOnes b0 = 3 := by
    unfold leadingOnes
    rw [if_neg (by omega), if_neg (by omega), if_neg (by omega), if_pos (by omega)]
  have hv : utf8CodePoint [b0, b1, b2] = some cp := by
    have hc1 : isCont b1 = true := by unfold isCont; simp; omega
    have hc2 : isCont b2 = true := by unfold isCont; simp; omega
    simp only [utf8CodePoint, hc1, hc2, and_true]
    rw [if_pos (by omega), Option.some.injEq]
    omega
  have hr : readEscape ([hexDigit (b0 / 16), hexDigit (b0 % 16),
      37, hexDigit (b1 / 16), hexDigit (b1 % 16),
      37, hexDigit (b2 / 16), hexDigit (b2 % 16)] ++ r) =
      .ok (utf16EncodeCodePoint cp, 8) := by
    simp only [List.cons_append, List.nil_append, readEscape,
      parseHexOctet_escape b0 (by omega), continuationOctet_escape b1 (by omega),
      continuationOctet_escape b2 (by omega), hl]
    simp [decodedSequence, hv]
  rw [he, decodeGo_percent _ _ _ hr]
  have := decodeGo_skip [hexDigit (b0 / 16), hexDigit (b0 % 16),
      37, hexDigit (b1 / 16), hexDigit (b1 % 16),
      37, hexDigit (b2 / 16), hexDigit (b2 % 16)] r
  rw [show ([hexDigit (b0 / 16), hexDigit (b0 % 16),
      37, hexDigit (b1 / 16), hexDigit (b1 % 16),
      37, hexDigit (b2 / 16), hexDigit (b2 % 16)] : Str).length = 8 from rfl] at this
  rw [this]

theorem decode_escape_four (cp : Nat) (r : Str) (h1 : 65536 ≤ cp) (h2 : cp < 1114112) :
    decodeGo (escapeCodePoint cp ++ r) 0 =
      (decodeGo r 0).map (fun s => utf16EncodeCodePoint cp ++ s) := by
  have hu : utf8Encode cp =
      [240 + cp / 262144, 128 + cp / 4096 % 64, 128 + cp / 64 % 64, 128 + cp % 64] := by
    unfold utf8Encode; rw [if_neg (by omega), if_neg (by omega), if_neg (by omega)]
  generalize hb0 : 240 + cp / 262144 = b0 at hu
  generalize hb1 : 128 + cp / 4096 % 64 = b1 at hu
  generalize hb2 : 128 + cp / 64 % 64 = b2 at hu
  generalize hb3 : 128 + cp % 64 = b3 at hu
  have he : escapeCodePoint cp ++ r =
      37 :: ([hexDigit (b0 / 16), hexDigit (b0 % 16),
              37, hexDigit (b1 / 16), hexDigit (b1 % 16),
              37, hexDigit (b2 / 16), hexDigit (b2 % 16),
              37, hexDigit (b3 / 16), hexDigit (b3 % 16)] ++ r) := by
    simp [escapeCodePoint, hu, escapeOctet]
  have hl : leadingOnes b0 = 4 := by
    unfold leadingOnes
    rw [if_neg (by omega), if_neg (by omega), if_neg (by omega), if_neg (by omega),
      if_pos (by omega)]
  have hv : utf8CodePoint [b0, b1, b2, b3] = some cp := by
    have hc1 : isCont b1 = true := by unfold isCont; simp; omega
    have hc2 : isCont b2 = true := by unfold isCont; simp; omega
    have hc3 : isCont b3 = true := by unfold isCont; simp; omega
    simp only [utf8CodePoint, hc1, hc2, hc3, and_true]
    rw [if_pos (by omega), Option.some.injEq]
    omega
  have hr : readEscape ([hexDigit (b0 / 16), hexDigit (b0 % 16),
      37, hexDigit (b1 / 16), hexDigit (b1 % 16),
      37, hexDigit (b2 / 16), hexDigit (b2 % 16),
      37, hexDigit (b3 / 16), hexDigit (b3 % 16)] ++ r) =
      .ok (utf16EncodeCodePoint cp, 11) := by
    simp only [List.cons_append, List.nil_append, readEscape,
      parseHexOctet_escape b0 (by omega), continuationOctet_escape b1 (by omega),
      continuationOctet_escape b2 (by omega), continuationOctet_escape b3 (by omega), hl]
    simp [decodedSequence, hv]
  rw [he, decodeGo_percent _ _ _ hr]
  have := decodeGo_skip [hexDigit (b0 / 16), hexDigit (b0 % 16),
      37, hexDigit (b1 / 16), hexDigit (b1 % 16),
      37, hexDigit (b2 / 16), hexDigit (b2 % 16),
      37, hexDigit (b3 / 16), hexDigit (b3 % 16)] r
  rw [show ([hexDigit (b0 / 16), hexDigit (b0 % 16),
      37, hexDigit (b1 / 16), hexDigit (b1 % 16),
      37, hexDigit (b2 / 16), hexDigit (b2 % 16),
      37, hexDigit (b3 / 16), hexDigit (b3 % 16)] : Str).length = 11 from rfl] at this
  rw [this]

/-- Decoding the escape sequence of a Unicode scalar value gives its code units. -/
theorem decode_escapeCodePoint (cp : Nat) (r : Str) (h : cp < 1114112)
    (hs : cp < 55296 ∨ 57344 ≤ cp) :
    decodeGo (escapeCodePoint cp ++ r) 0 =
      (decodeGo r 0).map (fun s => utf16EncodeCodePoint cp ++ s) := by
  by_cases h1 : cp < 128
  · exact decode_escape_one cp r h1
  · by_cases h2 : cp < 2048
    · exact decode_escape_two cp r (by omega) h2
    · by_cases h3 : cp < 65536
      · exact decode_escape_three cp r (by omega) h3 hs
      · exact decode_escape_four cp r (by omega) h

theorem except_map_ok {α β : Type} (f : α → β) (x : Except URIError α) (b : β)
    (h : x.map f = .ok b) : ∃ a, x = .ok a ∧ f a = b := by
  cases x with
  | error e => cases h
  | ok a => exact ⟨a, rfl, Except.ok.inj h⟩

theorem decodeGo_cons_ne (c : Nat) (cs : Str) (h : c ≠ 37) :
    decodeGo (c :: cs) 0 = (decodeGo cs 0).map (fun r => c :: r) := by
  rw [decodeGo, if_neg h]

theorem isUnreserved_ne_percent (c : Nat) (h : isUnreserved c = true) : c ≠ 37 := by
  intro hc
  subst hc
  exact absurd h (by decide)

/-- Decoding undoes encoding, whatever follows the encoded text. -/
theorem decode_encode : ∀ (n : Nat) (u e r : Str), u.length ≤ n → (∀ c ∈ u, c < 65536) →
    encodeURIComponent u = .ok e →
    decodeGo (e ++ r) 0 = (decodeGo r 0).map (fun s => u ++ s)
  | _, [], e, r, _, _, he => by
    simp only [encodeURIComponent, Except.ok.injEq] at he
    subst he
    rw [List.nil_append]
    cases decodeGo r 0 <;> rfl
  | 0, c :: rest, _, _, hn, _, _ => by simp at hn
  | n + 1, c :: rest, e, r, hn, hcu, he => by
    have hc : c < 65536 := hcu c (by simp)
    have hrest : ∀ x ∈ rest, x < 65536 := fun x hx => hcu x (by simp [hx])
    have hlen : rest.length ≤ n := by simp only [List.length_cons] at hn; omega
    by_cases hun : isUnreserved c = true
    · have he2 : (encodeURIComponent rest).map (fun r => c :: r) = .ok e := by
        rw [← he]; cases rest <;> simp [encodeURIComponent, hun]
      obtain ⟨e1, he1, hce⟩ := except_map_ok _ _ _ he2
      subst hce
      rw [List.cons_append, decodeGo_cons_ne _ _ (isUnreserved_ne_percent c hun),
        decode_encode n rest e1 r hlen hrest he1]
      cases decodeGo r 0 <;> rfl
    · by_cases hlow : 56320 ≤ c ∧ c ≤ 57343
      · exfalso
        cases rest <;> simp [encodeURIComponent, hun, hlow] at he
      · by_cases hhigh : 55296 ≤ c ∧ c ≤ 56319
        · cases rest with
          | nil => simp [encodeURIComponent, hun, hlow, hhigh] at he
          | cons d r1 =>
            by_cases hd : 56320 ≤ d ∧ d ≤ 57343
            · have he2 : (encodeURIComponent r1).map (fun r =>
                  escapeCodePoint ((c - 55296) * 1024 + (d - 56320) + 65536) ++ r) = .ok e := by
                rw [← he]; simp [encodeURIComponent, hun, hlow, hhigh, hd]
              obtain ⟨e1, he1, hce⟩ := except_map_ok _ _ _ he2
              subst hce
              have hr1 : ∀ x ∈ r1, x < 65536 := fun x hx => hrest x (by simp [hx])
              rw [List.append_assoc, decode_escapeCodePoint _ _ (by omega) (by omega),
                decode_encode n r1 e1 r (by simp only [List.length_cons] at hlen; omega) hr1 he1]
              have hpair : utf16EncodeCodePoint ((c - 55296) * 1024 + (d - 56320) + 65536) =
                  [c, d] := by
                unfold utf16EncodeCodePoint
                rw [if_neg (by omega)]
                congr 1
                · omega
                · congr 1; omega
              rw [hpair]
              cases decodeGo r 0 <;> rfl
            · simp [encodeURIComponent, hun, hlow, hhigh, hd] at he
        · have he2 : (encodeURIComponent rest).map (fun r => escapeCodePoint c ++ r) = .ok e := by
            rw [← he]; cases rest <;> simp [encodeURIComponent, hun, hlow, hhigh]
          obtain ⟨e1, he1, hce⟩ := except_map_ok _ _ _ he2
          subst hce
          rw [List.append_assoc, decode_escapeCodePoint _ _ (by omega) (by omega),
            decode_encode n rest e1 r hlen hrest he1]
          have hone : utf16EncodeCodePoint c = [c] := by
            unfold utf16EncodeCodePoint
            rw [if_pos (by omega)]
          rw [hone]
          cases decodeGo r 0 <;> rfl

theorem hexDigit_ne_eq (n : Nat) : hexDigit n ≠ 61 := by
  unfold hexDigit
  split_ifs <;> omega

theorem escapeCodePoint_no_eq (cp : Nat) : 61 ∉ escapeCodePoint cp := by
  unfold escapeCodePoint
  intro h
  obtain ⟨b, _, hb⟩ := List.mem_flatMap.mp h
  simp only [escapeOctet, List.mem_cons, List.mem_singleton, List.not_mem_nil, or_false] at hb
  rcases hb with hb | hb | hb
  · omega
  · exact hexDigit_ne_eq _ hb.symm
  · exact hexDigit_ne_eq _ hb.symm

theorem escapeCodePoint_ne_nil (cp : Nat) : escapeCodePoint cp ≠ [] := by
  unfold escapeCodePoint utf8Encode
  split_ifs <;> simp [escapeOctet]

theorem isUnreserved_ne_eq (c : Nat) (h : isUnreserved c = true) : c ≠ 61 := by
  intro hc
  subst hc
  exact absurd h (by decide)

/-- One step of `encodeURIComponent`: a non-empty piece without `=`, then the encoding of
a shorter text. -/
theorem encode_cons (c : Nat) (rest e : Str) (he : encodeURIComponent (c :: rest) = .ok e) :
    ∃ piece u1 e1, e = piece ++ e1 ∧ encodeURIComponent u1 = .ok e1 ∧
      u1.length ≤ rest.length ∧ piece ≠ [] ∧ 61 ∉ piece := by
  by_cases hun : isUnreserved c = true
  · have he2 : (encodeURIComponent rest).map (fun r => c :: r) = .ok e := by
      rw [← he]; cases rest <;> simp [encodeURIComponent, hun]
    obtain ⟨e1, he1, hce⟩ := except_map_ok _ _ _ he2
    refine ⟨[c], rest, e1, hce.symm, he1, le_refl _, by simp, ?_⟩
    simp only [List.mem_singleton]
    exact fun h => isUnreserved_ne_eq c hun h.symm
  · by_cases hlow : 56320 ≤ c ∧ c ≤ 57343
    · exfalso
      cases rest <;> simp [encodeURIComponent, hun, hlow] at he
    · by_cases hhigh : 55296 ≤ c ∧ c ≤ 56319
      · cases rest with
        | nil => simp [encodeURIComponent, hun, hlow, hhigh] at he
        | cons d r1 =>
          by_cases hd : 56320 ≤ d ∧ d ≤ 57343
          · have he2 : (encodeURIComponent r1).map (fun r =>
                escapeCodePoint ((c - 55296) * 1024 + (d - 56320) + 65536) ++ r) = .ok e := by
              rw [← he]; simp [encodeURIComponent, hun, hlow, hhigh, hd]
            obtain ⟨e1, he1, hce⟩ := except_map_ok _ _ _ he2
            exact ⟨_, r1, e1, hce.symm, he1, by simp, escapeCodePoint_ne_nil _,
              escapeCodePoint_no_eq _⟩
          · simp [encodeURIComponent, hun, hlow, hhigh, hd] at he
      · have he2 : (encodeURIComponent rest).map (fun r => escapeCodePoint c ++ r) = .ok e := by
          rw [← he]; cases rest <;> simp [encodeURIComponent, hun, hlow, hhigh]
        obtain ⟨e1, he1, hce⟩ := except_map_ok _ _ _ he2
        exact ⟨_, rest, e1, hce.symm, he1, le_refl _, escapeCodePoint_ne_nil _,
          escapeCodePoint_no_eq _⟩

theorem encode_no_eq : ∀ (n : Nat) (u e : Str), u.length ≤ n →
    encodeURIComponent u = .ok e → 61 ∉ e
  | _, [], e, _, he => by
    simp only [encodeURIComponent, Except.ok.injEq] at he
    subst he
    simp
  | 0, c :: rest, _, hn, _ => by simp at hn
  | n + 1, c :: rest, e, hn, he => by
    obtain ⟨piece, u1, e1, hpe, he1, hlen, _, hno⟩ := encode_cons c rest e he
    have ih := encode_no_eq n u1 e1 (by simp only [List.length_cons] at hn; omega) he1
    rw [hpe]
    intro h
    rcases List.mem_append.mp h with h | h
    · exact hno h
    · exact ih h

theorem encode_ne_nil (u e : Str) (hu : u ≠ []) (he : encodeURIComponent u = .ok e) :
    e ≠ [] := by
  cases u with
  | nil => exact absurd rfl hu
  | cons c rest =>
    obtain ⟨piece, u1, e1, hpe, _, _, hne, _⟩ := encode_cons c rest e he
    rw [hpe]
    intro h
    exact hne (List.append_eq_nil.mp h).1

theorem imageEq : utf16 "image=" = [105, 109, 97, 103, 101, 61] := by decide

theorem includes_false_of_no_eq : ∀ (s : Str), 61 ∉ s → includes s (utf16 "image=") = false
  | [], _ => by rw [imageEq]; rfl
  | c :: cs, h => by
    have hcs : 61 ∉ cs := fun hx => h (by simp [hx])
    rw [includes, includes_false_of_no_eq cs hcs, Bool.or_false]
    by_contra hp
    rw [Bool.not_eq_false, List.isPrefixOf_iff_prefix, imageEq] at hp
    have hmem : 61 ∈ [105, 109, 97, 103, 101, 61] := by decide
    exact h (hp.subset hmem)

theorem splitGo_skip (sep : Str) :
    ∀ (l r acc : Str), splitGo sep (l ++ r) l.length acc = splitGo sep r 0 acc
  | [], r, acc => by cases r <;> rfl
  | c :: cs, r, acc => by
    simp only [List.cons_append, List.length_cons, splitGo]
    exact splitGo_skip sep cs r acc

/-- No occurrence of `image=` begins inside `p` when `p` itself holds none. -/
theorem no_straddle (p rest : Str) (hne : p ≠ [])
    (hp : (utf16 "image=").isPrefixOf p = false) :
    (utf16 "image=").isPrefixOf (p ++ utf16 "image=" ++ rest) = false := by
  rw [imageEq] at hp ⊢
  rcases p with _ | ⟨a, _ | ⟨b, _ | ⟨c, _ | ⟨d, _ | ⟨e, _ | ⟨f, tl⟩⟩⟩⟩⟩⟩
  · exact absurd rfl hne
  all_goals simp_all [List.isPrefixOf]

theorem splitGo_image : ∀ (p acc rest : Str), includes p (utf16 "image=") = false →
    includes rest (utf16 "image=") = false →
    splitGo (utf16 "image=") (p ++ utf16 "image=" ++ rest) 0 acc = [acc.reverse ++ p, rest]
  | [], acc, rest, _, hr => by
    have h1 : ([] : Str) ++ utf16 "image=" ++ rest =
        105 :: ([109, 97, 103, 101, 61] ++ rest) := by rw [imageEq]; rfl
    have h2 : (utf16 "image=").isPrefixOf (105 :: ([109, 97, 103, 101, 61] ++ rest)) = true := by
      rw [imageEq]; simp [List.isPrefixOf]
    rw [h1, splitGo, if_pos h2]
    have h3 := splitGo_skip (utf16 "image=") [109, 97, 103, 101, 61] rest []
    have h4 : (utf16 "image=").length - 1 = ([109, 97, 103, 101, 61] : Str).length := by
      rw [imageEq]; rfl
    rw [h4, h3, splitGo_of_not_includes _ rest [] hr]
    simp
  | c :: cs, acc, rest, hp, hr => by
    simp only [includes, Bool.or_eq_false_iff] at hp
    have hns := no_straddle (c :: cs) rest (by simp) hp.1
    have hcons : (c :: cs) ++ utf16 "image=" ++ rest = c :: (cs ++ utf16 "image=" ++ rest) := rfl
    rw [hcons] at hns ⊢
    rw [splitGo, if_neg (by rw [hns]; simp), splitGo_image cs (c :: acc) rest hp.2 hr]
    simp

theorem logoUrl_eq (src : Str) (hne : src ≠ []) :
    logoUrl (some src) =
      decodeURIComponent (orElse ((split src (utf16 "image="))[1]?) src) := by
  cases src with
  | nil => exact absurd rfl hne
  | cons c cs => rfl

theorem orElse_of_ne_nil (x y : Str) (h : x ≠ []) : orElse (some x) y = x := by
  cases x with
  | nil => exact absurd rfl h
  | cons c cs => rfl

/-- The logo URL of an address `p ++ "image=" ++ rest` in which `image=` occurs once. -/
theorem logoUrl_image (p rest : Str) (hp : includes p (utf16 "image=") = false)
    (hr : includes rest (utf16 "image=") = false) (hne : rest ≠ []) :
    logoUrl (some (p ++ utf16 "image=" ++ rest)) = decodeURIComponent rest := by
  have hsrc : p ++ utf16 "image=" ++ rest ≠ [] := by
    intro h
    exact hne (List.append_eq_nil.mp h).2
  rw [logoUrl_eq _ hsrc]
  unfold split
  rw [splitGo_image p [] rest hp hr]
  simp only [List.reverse_nil, List.nil_append, List.getElem?_cons_succ,
    List.getElem?_cons_zero]
  rw [orElse_of_ne_nil _ _ hne]

/-- C6 (as stated, refuted): a query parameter after the `image=` value stays attached
to the logo URL, and an earlier `image=` in the address takes the place of the
parameter. -/
theorem following_parameters_kept :
    (¬ ∀ (p u e t : Str), u ≠ [] → encodeURIComponent u = .ok e →
        (t = [] ∨ t.head? = some 38) →
        logoUrl (some (p ++ utf16 "image=" ++ e ++ t)) = .ok u) ∧
    logoUrl (some (utf16 "https://i.com/r?image=http%3A%2F%2Fexample.com%2Fa.png&w=64")) =
      .ok (utf16 "http://example.com/a.png&w=64") ∧
    logoUrl (some (utf16 "https://i.com/r?bgimage=1&image=http%3A%2F%2Fexample.com%2Fa.png")) =
      .ok (utf16 "1&") := by
  refine ⟨?_, by decide, by decide⟩
  intro h
  exact absurd (h (utf16 "https://i.com/r?") (utf16 "http://example.com/a.png")
    (utf16 "http%3A%2F%2Fexample.com%2Fa.png") (utf16 "&w=64") (by decide) (by decide)
    (Or.inr (by decide))) (by decide)

/-- C6 (amended): for an address `p ++ "image=" ++ e` where `p` holds no `image=` and `e`
is the percent-encoding (`encodeURIComponent`) of a non-empty string `u`, the logo URL is
`u`, and that is what the pushed record stores; text `t` after `e` is decoded and stays
attached to `u`. -/
theorem image_param_decoded (p u e : Str) (hp : includes p (utf16 "image=") = false)
    (hu : u ≠ []) (hcu : ∀ c ∈ u, c < 65536) (he : encodeURIComponent u = .ok e) :
    logoUrl (some (p ++ utf16 "image=" ++ e)) = .ok u ∧
    (∀ t t1 : Str, includes (e ++ t) (utf16 "image=") = false →
      decodeURIComponent t = .ok t1 →
      logoUrl (some (p ++ utf16 "image=" ++ (e ++ t))) = .ok (u ++ t1)) ∧
    (∀ (leagueName : Str) (matchList out : List Match) (matchCard : Node),
      eachMatchCard leagueName matchList matchCard = .ok out →
      out = matchList ∨ ∃ r, out = matchList ++ [r] ∧
        (homeLogo matchCard = some (p ++ utf16 "image=" ++ e) → r.homeLogo = u) ∧
        (awayLogo matchCard = some (p ++ utf16 "image=" ++ e) → r.awayLogo = u)) := by
  have hene : e ≠ [] := encode_ne_nil u e hu he
  have hgen : ∀ t t1 : Str, includes (e ++ t) (utf16 "image=") = false →
      decodeURIComponent t = .ok t1 →
      logoUrl (some (p ++ utf16 "image=" ++ (e ++ t))) = .ok (u ++ t1) := by
    intro t t1 ht hdt
    have hne : e ++ t ≠ [] := fun h => hene (List.append_eq_nil.mp h).1
    rw [logoUrl_image p (e ++ t) hp ht hne]
    unfold decodeURIComponent at hdt ⊢
    rw [decode_encode u.length u e t (le_refl _) hcu he, hdt]
    rfl
  have h1 : logoUrl (some (p ++ utf16 "image=" ++ e)) = .ok u := by
    have := hgen [] [] (by
      rw [List.append_nil]
      exact includes_false_of_no_eq e (encode_no_eq u.length u e (le_refl _) he)) rfl
    simpa using this
  refine ⟨h1, hgen, ?_⟩
  intro leagueName matchList out matchCard hout
  rcases eachMatchCard_ok _ _ _ _ hout with h3 | ⟨_, _, _, hl, al, hhl, hal, h3⟩
  · exact Or.inl h3
  · refine Or.inr ⟨_, h3, ?_, ?_⟩
    · intro hsrc
      rw [hsrc, h1] at hhl
      exact (Except.ok.inj hhl).symm
    · intro hsrc
      rw [hsrc, h1] at hal
      exact (Except.ok.inj hal).symm

/-- The theorem on the address of the specification. -/
theorem image_param_decoded_witness :
    includes (utf16 "https://image-service.example.com/r?w=128&") (utf16 "image=") = false ∧
    utf16 "http://example.com/a.png" ≠ [] ∧
    (∀ c ∈ utf16 "http://example.com/a.png", c < 65536) ∧
    encodeURIComponent (utf16 "http://example.com/a.png") =
      .ok (utf16 "http%3A%2F%2Fexample.com%2Fa.png") ∧
    logoUrl (some (utf16 "https://image-service.example.com/r?w=128&" ++ utf16 "image=" ++
      utf16 "http%3A%2F%2Fexample.com%2Fa.png")) = .ok (utf16 "http://example.com/a.png") :=
  ⟨by decide, by decide, by decide, by decide,
   (image_param_decoded (utf16 "https://image-service.example.com/r?w=128&")
     (utf16 "http://example.com/a.png") (utf16 "http%3A%2F%2Fexample.com%2Fa.png")
     (by decide) (by decide) (by decide) (by decide)).1⟩

end OneFootball
